import Mathlib

/-
Verification of the MapGenerator terrain core (diamond-square heightmaps,
marching-squares contour extraction, heightmap island orchestration and the
solid-landmass synthesizer) against its specification.

Modelling conventions, used uniformly below:
- JavaScript numbers are modelled as exact rationals.  All arithmetic in the
  source is +, -, *, / and comparisons, which are exact here; in exact
  arithmetic every produced value is a finite rational, so float-specific
  Infinity/NaN states do not arise on the modelled inputs.
- Transcendental library calls (Math.sqrt, Math.pow with fractional exponent,
  Math.sin, Math.cos, Math.PI) have no rational realisation.  They are
  supplied as an explicit record of functions (JsMath below) that the
  definitions take as a parameter; theorems quantify over that record (adding
  the defining property of the function as a hypothesis when a claim needs
  it, for example the Pythagorean identity for sin and cos).
- Comparisons of Euclidean distances against nonnegative constants are
  embedded in squared form: for e larger than 0, sqrt d < e iff d < e * e.
  The source comparisons are therefore represented exactly even though the
  distance value itself is irrational.
- Math.random() is modelled as an explicit stream of rationals with a cursor
  (RandState below); the seeded generator of DiamondSquare is the
  linear-congruential map on a natural-number state, exactly as in the
  source.  Every source function that draws randomness threads this state
  explicitly, so the embedding exposes every source of randomness as an
  input.
-/

namespace MapGen

/-- Modelled from the spec: the 2D vector class (ts/vector.ts) is not part of
the provided sources; only its users are.  Per the spec it is a plain
euclidean 2-vector with an x and y component; distanceTo is euclidean
distance, compared here in squared form. -/
structure Vec where
  x : ℚ
  y : ℚ
deriving DecidableEq, Repr

/-- Squared euclidean distance; distanceTo a b OP e is embedded as
distSq a b OP e*e for nonnegative e. -/
def distSq (a b : Vec) : ℚ :=
  (a.x - b.x) ^ 2 + (a.y - b.y) ^ 2

theorem distSq_comm (a b : Vec) : distSq a b = distSq b a := by
  unfold distSq; ring

theorem distSq_nonneg (a b : Vec) : 0 ≤ distSq a b := by
  unfold distSq; positivity

/-- Stream-of-rationals model of Math.random: an infinite tape and a cursor. -/
structure RandState where
  tape : ℕ → ℚ
  cursor : ℕ

/-- Draw one Math.random() value: read the tape at the cursor, advance. -/
def rsNext (st : RandState) : ℚ × RandState :=
  (st.tape st.cursor, ⟨st.tape, st.cursor + 1⟩)

/-- One step of the seeded linear-congruential generator of DiamondSquare:
state = (state * 1664525 + 1013904223) % 4294967296; the drawn value is
state / 4294967296. -/
def lcgNext (s : ℕ) : ℚ × ℕ :=
  let s2 := (s * 1664525 + 1013904223) % 4294967296
  ((s2 : ℚ) / 4294967296, s2)

/-- DiamondSquare.randomValue: (rng() - 0.5) * 2, generic in the rng state. -/
def randomValue {σ : Type} (next : σ → ℚ × σ) (st : σ) : ℚ × σ :=
  let p := next st
  ((p.1 - 1/2) * 2, p.2)

/-- DiamondSquare.isPowerOfTwo: n > 0 && (n & (n - 1)) === 0, on naturals. -/
def isPowerOfTwo (n : ℕ) : Bool :=
  decide (0 < n) && decide (Nat.land n (n - 1) = 0)

/-- Heightmaps: row-major grid of rationals, heightmap[x][y]. -/
abbrev Grid := List (List ℚ)

/-- Read heightmap[x][y]; out-of-range reads default to 0.  The source reads
without checks only at indices that are in range by construction. -/
def get2 (g : Grid) (x y : ℕ) : ℚ :=
  (g.getD x []).getD y 0

/-- Optional read of heightmap[x][y], for the places where the source
compares a possibly-undefined cell (undefined compares false). -/
def get2? (g : Grid) (x y : ℕ) : Option ℚ :=
  (List.get? g x).bind fun row => List.get? row y

/-- Write heightmap[x][y] = v (no-op out of range, which never happens on
the source's in-range writes). -/
def set2 (g : Grid) (x y : ℕ) (v : ℚ) : Grid :=
  g.set x ((g.getD x []).set y v)

theorem set_self_getD {α : Type} : ∀ (l : List α) (n : ℕ) (d : α),
    l.set n (l.getD n d) = l
  | [], _, _ => by simp
  | a :: t, 0, d => by simp
  | a :: t, n + 1, d => by
    simp only [List.set, List.getD_cons_succ]
    rw [set_self_getD t n d]

theorem getD_map_length (g : Grid) (x : ℕ) :
    (g.map List.length).getD x 0 = (g.getD x []).length := by
  induction g generalizing x with
  | nil => simp
  | cons r t ih =>
    cases x with
    | zero => simp
    | succ n => simpa using ih n

theorem get2_set2_ne (g : Grid) (x y x2 y2 : ℕ) (v : ℚ)
    (h : x ≠ x2 ∨ y ≠ y2) :
    get2 (set2 g x y v) x2 y2 = get2 g x2 y2 := by
  unfold get2 set2
  by_cases hx : x = x2
  · subst hx
    have hy : y ≠ y2 := by
      rcases h with h | h
      · exact absurd rfl h
      · exact h
    by_cases hlt : x < g.length
    · simp [List.getD_eq_getElem?_getD, List.getElem?_set_self hlt,
        List.getElem?_set_ne hy]
    · rw [List.set_eq_of_length_le (Nat.le_of_not_lt hlt)]
  · simp [List.getD_eq_getElem?_getD, List.getElem?_set_ne hx]

theorem get2_set2_self (g : Grid) (x y : ℕ) (v : ℚ)
    (hx : x < g.length) (hy : y < (g.getD x []).length) :
    get2 (set2 g x y v) x y = v := by
  unfold get2 set2
  simp only [List.getD_eq_getElem?_getD] at hy
  simp [List.getD_eq_getElem?_getD, List.getElem?_set_self hx,
    List.getElem?_set_self hy]

/-- The list of row lengths of a grid (grid shape). -/
def rowLens (g : Grid) : List ℕ :=
  g.map List.length

theorem rowLens_set2 (g : Grid) (x y : ℕ) (v : ℚ) :
    rowLens (set2 g x y v) = rowLens g := by
  unfold rowLens set2
  rw [List.map_set]
  have h1 : ((g.getD x []).set y v).length = (g.getD x []).length := by simp
  rw [h1, ← getD_map_length g x, set_self_getD]

theorem length_set2 (g : Grid) (x y : ℕ) (v : ℚ) :
    (set2 g x y v).length = g.length := by
  unfold set2; simp

/-- Indexed map over one row, carrying the absolute starting index. -/
def mapRowIdx {α β : Type} (f : ℕ → α → β) : ℕ → List α → List β
  | _, [] => []
  | i, a :: t => f i a :: mapRowIdx f (i + 1) t

theorem length_mapRowIdx {α β : Type} (f : ℕ → α → β) (i : ℕ) (l : List α) :
    (mapRowIdx f i l).length = l.length := by
  induction l generalizing i with
  | nil => rfl
  | cons a t ih => simp [mapRowIdx, ih]

theorem getD_mapRowIdx {α β : Type} (f : ℕ → α → β) (i j : ℕ) (l : List α)
    (d : α) (d2 : β) (hj : j < l.length) :
    (mapRowIdx f i l).getD j d2 = f (i + j) (l.getD j d) := by
  induction l generalizing i j with
  | nil => simp at hj
  | cons a t ih =>
    cases j with
    | zero => simp [mapRowIdx, List.getD]
    | succ n =>
      have := ih (i + 1) n (by simpa using hj)
      simp only [mapRowIdx, List.getD] at this ⊢
      simpa [Nat.add_assoc, Nat.add_comm 1 n] using this

/-- Cell-indexed map over a grid: result[x][y] = f x y grid[x][y], the shape
of the elementwise rebuild loops of the source (normalize, masks, profiles). -/
def mapGridIdx (f : ℕ → ℕ → ℚ → ℚ) (g : Grid) : Grid :=
  mapRowIdx (fun x row => mapRowIdx (fun y v => f x y v) 0 row) 0 g

theorem length_mapGridIdx (f : ℕ → ℕ → ℚ → ℚ) (g : Grid) :
    (mapGridIdx f g).length = g.length := by
  unfold mapGridIdx; exact length_mapRowIdx _ 0 g

theorem get2_mapGridIdx (f : ℕ → ℕ → ℚ → ℚ) (g : Grid) (x y : ℕ)
    (hx : x < g.length) (hy : y < (g.getD x []).length) :
    get2 (mapGridIdx f g) x y = f x y (get2 g x y) := by
  unfold mapGridIdx get2
  have h1 := getD_mapRowIdx (fun x row => mapRowIdx (fun y v => f x y v) 0 row)
      0 x g [] [] hx
  rw [h1]
  simpa using getD_mapRowIdx (fun y v => f x y v) 0 y (g.getD x []) 0 0 hy

/-- A fold that only ever rewrites state in a property-preserving way
preserves the property. -/
theorem foldl_preserve {α β : Type} (f : β → α → β) (P : β → Prop)
    (l : List α) (init : β) (h0 : P init)
    (h : ∀ b a, a ∈ l → P b → P (f b a)) : P (l.foldl f init) := by
  induction l generalizing init with
  | nil => exact h0
  | cons a t ih =>
    exact ih (f init a) (h init a (List.mem_cons_self a t) h0)
      (fun b x hx hb => h b x (List.mem_cons_of_mem a hx) hb)

/-- Index list of the loop for (i = start; i < stop; i += step). -/
def strideIdxLt (start stop step : ℕ) : List ℕ :=
  List.range' start ((stop - start + step - 1) / step) step

/-- Index list of the loop for (i = start; i <= stop; i += step). -/
def strideIdxLe (start stop step : ℕ) : List ℕ :=
  if start ≤ stop then List.range' start ((stop - start) / step + 1) step else []

/-- DiamondSquare.getSquareAverage: average of the up-to-four in-bounds
axis neighbors at distance half, else 0 when none is in bounds. -/
def getSquareAverage (g : Grid) (x y half size : ℕ) : ℚ :=
  let neighbors : List (ℤ × ℤ) :=
    [((x : ℤ) - (half : ℤ), (y : ℤ)), ((x : ℤ) + (half : ℤ), (y : ℤ)),
     ((x : ℤ), (y : ℤ) - (half : ℤ)), ((x : ℤ), (y : ℤ) + (half : ℤ))]
  let sc := neighbors.foldl
    (fun (p : ℚ × ℕ) n =>
      if 0 ≤ n.1 ∧ n.1 ≤ (size : ℤ) ∧ 0 ≤ n.2 ∧ n.2 ≤ (size : ℤ) then
        (p.1 + get2 g n.1.toNat n.2.toNat, p.2 + 1)
      else p)
    ((0 : ℚ), (0 : ℕ))
  if 0 < sc.2 then sc.1 / (sc.2 : ℚ) else 0

/-- The diamond pass of DiamondSquare.diamondSquare: centers of step-sized
squares get the average of their four diagonal neighbors plus a scaled
random displacement. -/
def dsDiamond {σ : Type} (next : σ → ℚ × σ) (size step half : ℕ) (scale : ℚ)
    (gs : Grid × σ) : Grid × σ :=
  (strideIdxLt half size step).foldl
    (fun gs0 x =>
      (strideIdxLt half size step).foldl
        (fun gs1 y =>
          let avg := (get2 gs1.1 (x - half) (y - half) +
            get2 gs1.1 (x + half) (y - half) +
            get2 gs1.1 (x - half) (y + half) +
            get2 gs1.1 (x + half) (y + half)) / 4
          let rv := randomValue next gs1.2
          (set2 gs1.1 x y (avg + rv.1 * scale), rv.2))
        gs0)
    gs

/-- The square pass of DiamondSquare.diamondSquare: edge midpoints get the
average of their in-bounds axis neighbors plus a scaled random displacement. -/
def dsSquare {σ : Type} (next : σ → ℚ × σ) (size step half : ℕ) (scale : ℚ)
    (gs : Grid × σ) : Grid × σ :=
  (strideIdxLe 0 size half).foldl
    (fun gs0 x =>
      (strideIdxLe ((x + half) % step) size step).foldl
        (fun gs1 y =>
          let avg := getSquareAverage gs1.1 x y half size
          let rv := randomValue next gs1.2
          (set2 gs1.1 x y (avg + rv.1 * scale), rv.2))
        gs0)
    gs

/-- DiamondSquare.diamondSquare: while step > 1, run a diamond pass then a
square pass with half = step / 2, then halve step and scale. -/
def dsLoop {σ : Type} (next : σ → ℚ × σ) (size : ℕ) (step : ℕ) (scale : ℚ)
    (gs : Grid × σ) : Grid × σ :=
  if h : step ≤ 1 then gs
  else
    dsLoop next size (step / 2) (scale / 2)
      (dsSquare next size step (step / 2) scale
        (dsDiamond next size step (step / 2) scale gs))
termination_by step
decreasing_by exact Nat.div_lt_self (by omega) (by omega)

/-- DiamondSquare.generateHeightmap: reject non-power-of-two sizes, build a
(size+1) x (size+1) zero grid, draw the four corners, then run the
diamond-square loop from step = size with scale = smoothness.  Generic in
the rng state so both the seeded generator and the Math.random stream
instantiate it. -/
def generateHeightmapR {σ : Type} (next : σ → ℚ × σ) (size : ℕ)
    (smoothness : ℚ) (st : σ) : Except String (Grid × σ) :=
  if isPowerOfTwo size then
    let g0 : Grid := List.replicate (size + 1) (List.replicate (size + 1) (0 : ℚ))
    let r1 := randomValue next st
    let g1 := set2 g0 0 0 r1.1
    let r2 := randomValue next r1.2
    let g2 := set2 g1 0 size r2.1
    let r3 := randomValue next r2.2
    let g3 := set2 g2 size 0 r3.1
    let r4 := randomValue next r3.2
    let g4 := set2 g3 size size r4.1
    Except.ok (dsLoop next size size smoothness (g4, r4.2))
  else Except.error ("Size must be a power of 2, got " ++ toString size)

/-- A DiamondSquare instance constructed with a seed, then asked for one
heightmap: the rng is the linear-congruential generator started at the
seed, the only randomness source of the run. -/
def generateHeightmapSeeded (seed : ℕ) (size : ℕ) (smoothness : ℚ) :
    Except String (Grid × ℕ) :=
  generateHeightmapR lcgNext size smoothness seed

theorem mem_strideIdxLt {x start stop step : ℕ} (hstep : 0 < step)
    (hx : x ∈ strideIdxLt start stop step) : start ≤ x ∧ x < stop := by
  unfold strideIdxLt at hx
  rw [List.mem_range'] at hx
  obtain ⟨i, hi, rfl⟩ := hx
  refine ⟨Nat.le_add_right _ _, ?_⟩
  rcases Nat.lt_or_ge start stop with hss | hss
  · have h1 : (i + 1) * step ≤ ((stop - start + step - 1) / step) * step :=
      Nat.mul_le_mul_right step hi
    have h2 : ((stop - start + step - 1) / step) * step ≤ stop - start + step - 1 :=
      Nat.div_mul_le_self _ _
    have h3 : (i + 1) * step ≤ stop - start + step - 1 := le_trans h1 h2
    have h4 : (i + 1) * step = i * step + step := by ring
    have h5 : step * i = i * step := by ring
    omega
  · have hz : stop - start = 0 := by omega
    rw [hz] at hi
    have : (0 + step - 1) / step = 0 := Nat.div_eq_of_lt (by omega)
    rw [this] at hi
    omega

theorem mem_strideIdxLe {y start stop step : ℕ} (_hstep : 0 < step)
    (hy : y ∈ strideIdxLe start stop step) :
    start ≤ y ∧ y ≤ stop ∧ y % step = start % step := by
  unfold strideIdxLe at hy
  by_cases hss : start ≤ stop
  · rw [if_pos hss, List.mem_range'] at hy
    obtain ⟨i, hi, rfl⟩ := hy
    refine ⟨Nat.le_add_right _ _, ?_, ?_⟩
    · have h1 : i * step ≤ ((stop - start) / step) * step :=
        Nat.mul_le_mul_right step (by omega)
      have h2 : ((stop - start) / step) * step ≤ stop - start :=
        Nat.div_mul_le_self _ _
      have h4 : step * i = i * step := by ring
      omega
    · rw [Nat.mul_comm step i, Nat.add_mul_mod_self_right]
  · rw [if_neg hss] at hy
    simp at hy

theorem land_two_pow_pred (k : ℕ) : Nat.land (2 ^ k) (2 ^ k - 1) = 0 := by
  show 2 ^ k &&& (2 ^ k - 1) = 0
  apply Nat.eq_of_testBit_eq
  intro i
  rw [Nat.testBit_land, Nat.testBit_two_pow, Nat.testBit_two_pow_sub_one,
    Nat.zero_testBit]
  by_cases h : k = i
  · subst h; simp
  · simp [h]

theorem isPowerOfTwo_two_pow (k : ℕ) : isPowerOfTwo (2 ^ k) = true := by
  unfold isPowerOfTwo
  rw [land_two_pow_pred]
  simp [Nat.two_pow_pos]

/-- The source's bit test n > 0 && (n & (n-1)) === 0 recognises exactly the
powers of two among the positive naturals. -/
theorem isPowerOfTwo_iff (n : ℕ) (hn : 1 ≤ n) :
    isPowerOfTwo n = true ↔ ∃ k, n = 2 ^ k := by
  constructor
  · intro h
    unfold isPowerOfTwo at h
    rw [Bool.and_eq_true, decide_eq_true_iff, decide_eq_true_iff] at h
    obtain ⟨-, hland⟩ := h
    refine ⟨n.log2, ?_⟩
    have hle : 2 ^ n.log2 ≤ n := Nat.log2_self_le (by omega)
    have hlt : n < 2 ^ (n.log2 + 1) := Nat.lt_log2_self
    by_contra hne
    have hgt : 2 ^ n.log2 < n := lt_of_le_of_ne hle (fun e => hne e.symm)
    have hpos : 0 < 2 ^ n.log2 := Nat.two_pow_pos _
    have hmul : 2 ^ (n.log2 + 1) = 2 * 2 ^ n.log2 := by ring
    have ht1 : Nat.testBit n n.log2 = true := by
      rw [Nat.testBit_to_div_mod]
      have ha : 1 ≤ n / 2 ^ n.log2 := (Nat.one_le_div_iff hpos).2 hle
      have hb : n / 2 ^ n.log2 < 2 := by
        rw [Nat.div_lt_iff_lt_mul hpos]
        omega
      have : n / 2 ^ n.log2 = 1 := by omega
      simp [this]
    have ht2 : Nat.testBit (n - 1) n.log2 = true := by
      rw [Nat.testBit_to_div_mod]
      have ha : 1 ≤ (n - 1) / 2 ^ n.log2 := (Nat.one_le_div_iff hpos).2 (by omega)
      have hb : (n - 1) / 2 ^ n.log2 < 2 := by
        rw [Nat.div_lt_iff_lt_mul hpos]
        omega
      have : (n - 1) / 2 ^ n.log2 = 1 := by omega
      simp [this]
    have hbit : Nat.testBit (Nat.land n (n - 1)) n.log2 = true := by
      show Nat.testBit (n &&& (n - 1)) n.log2 = true
      rw [Nat.testBit_land, ht1, ht2]
      rfl
    rw [hland, Nat.zero_testBit] at hbit
    exact absurd hbit (by simp)
  · rintro ⟨k, rfl⟩
    exact isPowerOfTwo_two_pow k

/-- The four corner cells of a grid hold the four given values. -/
def CornersEq (g : Grid) (size : ℕ) (c1 c2 c3 c4 : ℚ) : Prop :=
  get2 g 0 0 = c1 ∧ get2 g 0 size = c2 ∧ get2 g size 0 = c3 ∧
    get2 g size size = c4

theorem CornersEq_set2 {g : Grid} {size x y : ℕ} {v c1 c2 c3 c4 : ℚ}
    (hpos : ¬(x = 0 ∨ x = size) ∨ ¬(y = 0 ∨ y = size))
    (h : CornersEq g size c1 c2 c3 c4) :
    CornersEq (set2 g x y v) size c1 c2 c3 c4 := by
  obtain ⟨h1, h2, h3, h4⟩ := h
  refine ⟨?_, ?_, ?_, ?_⟩ <;> rw [get2_set2_ne] <;> first
    | assumption
    | (rcases hpos with hp | hp
       · left; intro e; exact hp (by omega)
       · right; intro e; exact hp (by omega))

theorem rowLens_dsDiamond {σ : Type} (next : σ → ℚ × σ)
    (size step half : ℕ) (scale : ℚ) (gs : Grid × σ) :
    rowLens (dsDiamond next size step half scale gs).1 = rowLens gs.1 := by
  unfold dsDiamond
  refine foldl_preserve _ (fun gs2 : Grid × σ => rowLens gs2.1 = rowLens gs.1)
    _ _ rfl ?_
  intro b a _ hb
  refine foldl_preserve _
    (fun gs2 : Grid × σ => rowLens gs2.1 = rowLens gs.1) _ _ hb ?_
  intro b2 a2 _ hb2
  dsimp only
  rw [rowLens_set2]
  exact hb2

theorem rowLens_dsSquare {σ : Type} (next : σ → ℚ × σ)
    (size step half : ℕ) (scale : ℚ) (gs : Grid × σ) :
    rowLens (dsSquare next size step half scale gs).1 = rowLens gs.1 := by
  unfold dsSquare
  refine foldl_preserve _ (fun gs2 : Grid × σ => rowLens gs2.1 = rowLens gs.1)
    _ _ rfl ?_
  intro b a _ hb
  refine foldl_preserve _
    (fun gs2 : Grid × σ => rowLens gs2.1 = rowLens gs.1) _ _ hb ?_
  intro b2 a2 _ hb2
  dsimp only
  rw [rowLens_set2]
  exact hb2

theorem rowLens_dsLoop {σ : Type} (next : σ → ℚ × σ) (size : ℕ) :
    ∀ (step : ℕ) (scale : ℚ) (gs : Grid × σ),
      rowLens (dsLoop next size step scale gs).1 = rowLens gs.1 := by
  intro step
  induction step using Nat.strong_induction_on with
  | _ step ih =>
    intro scale gs
    unfold dsLoop
    by_cases h : step ≤ 1
    · rw [dif_pos h]
    · rw [dif_neg h]
      rw [ih (step / 2) (Nat.div_lt_self (by omega) (by omega))]
      rw [rowLens_dsSquare, rowLens_dsDiamond]

theorem corners_dsDiamond {σ : Type} (next : σ → ℚ × σ)
    (size step half : ℕ) (scale : ℚ) (gs : Grid × σ) {c1 c2 c3 c4 : ℚ}
    (hhalf : 1 ≤ half) (hstep : 0 < step)
    (h : CornersEq gs.1 size c1 c2 c3 c4) :
    CornersEq (dsDiamond next size step half scale gs).1 size c1 c2 c3 c4 := by
  unfold dsDiamond
  refine foldl_preserve _
    (fun gs2 : Grid × σ => CornersEq gs2.1 size c1 c2 c3 c4) _ _ h ?_
  intro b a ha hb
  refine foldl_preserve _
    (fun gs2 : Grid × σ => CornersEq gs2.1 size c1 c2 c3 c4) _ _ hb ?_
  intro b2 a2 _ hb2
  dsimp only
  obtain ⟨hal, hau⟩ := mem_strideIdxLt hstep ha
  exact CornersEq_set2 (Or.inl (by omega)) hb2

theorem corners_dsSquare {σ : Type} (next : σ → ℚ × σ)
    (size step half : ℕ) (scale : ℚ) (gs : Grid × σ) {c1 c2 c3 c4 : ℚ}
    (hhalf : 1 ≤ half) (h2 : step = 2 * half) (hdvd : step ∣ size)
    (h : CornersEq gs.1 size c1 c2 c3 c4) :
    CornersEq (dsSquare next size step half scale gs).1 size c1 c2 c3 c4 := by
  have hstep : 0 < step := by omega
  unfold dsSquare
  refine foldl_preserve _
    (fun gs2 : Grid × σ => CornersEq gs2.1 size c1 c2 c3 c4) _ _ h ?_
  intro b a ha hb
  refine foldl_preserve _
    (fun gs2 : Grid × σ => CornersEq gs2.1 size c1 c2 c3 c4) _ _ hb ?_
  intro b2 a2 ha2 hb2
  dsimp only
  obtain ⟨-, -, hmod⟩ := mem_strideIdxLe hstep ha2
  apply CornersEq_set2 ?_ hb2
  by_cases hx : a = 0 ∨ a = size
  · right
    have hsz : size % step = 0 := by
      obtain ⟨m, rfl⟩ := hdvd
      exact Nat.mul_mod_right step m
    have hxmod : a % step = 0 := by
      rcases hx with rfl | rfl
      · exact Nat.zero_mod step
      · exact hsz
    have hhl : half < step := by omega
    have hy : a2 % step = half := by
      have e1 : a2 % step = (a + half) % step := by
        rw [hmod, Nat.mod_mod_of_dvd _ (dvd_refl step)]
      have e2 : (a + half) % step = half := by
        rw [Nat.add_mod, hxmod, Nat.zero_add,
          Nat.mod_mod_of_dvd _ (dvd_refl step), Nat.mod_eq_of_lt hhl]
      rw [e1, e2]
    intro hy2
    rcases hy2 with rfl | rfl
    · rw [Nat.zero_mod] at hy; omega
    · rw [hsz] at hy; omega
  · exact Or.inl hx

theorem corners_dsLoop {σ : Type} (next : σ → ℚ × σ) (size : ℕ) :
    ∀ (step : ℕ) (scale : ℚ) (gs : Grid × σ) {c1 c2 c3 c4 : ℚ},
      (∃ j, step = 2 ^ j) → step ∣ size →
      CornersEq gs.1 size c1 c2 c3 c4 →
      CornersEq (dsLoop next size step scale gs).1 size c1 c2 c3 c4 := by
  intro step
  induction step using Nat.strong_induction_on with
  | _ step ih =>
    intro scale gs c1 c2 c3 c4 hpow hdvd h
    unfold dsLoop
    by_cases hle : step ≤ 1
    · rw [dif_pos hle]; exact h
    · rw [dif_neg hle]
      obtain ⟨j, rfl⟩ := hpow
      have hj : 1 ≤ j := by
        by_contra hj0
        have hj1 : j = 0 := by omega
        subst hj1
        simp at hle
      have hsplit : (2 : ℕ) ^ j = 2 * 2 ^ (j - 1) := by
        rw [← pow_succ']
        congr 1
        omega
      have hhalf : 2 ^ j / 2 = 2 ^ (j - 1) := by
        rw [hsplit, Nat.mul_div_cancel_left _ (by omega)]
      have hhpos : 1 ≤ 2 ^ j / 2 := by
        rw [hhalf]
        exact Nat.one_le_two_pow
      have hdvd2 : 2 ^ j / 2 ∣ size := by
        rw [hhalf]
        exact dvd_trans (pow_dvd_pow 2 (by omega)) hdvd
      refine ih _ (Nat.div_lt_self (by omega) (by omega)) _ _
        ⟨j - 1, hhalf⟩ hdvd2 ?_
      refine corners_dsSquare next size _ _ _ _ hhpos ?_ hdvd ?_
      · rw [hhalf, ← hsplit]
      · exact corners_dsDiamond next size _ _ _ _ hhpos (by omega) h

theorem length_eq_of_rowLens {g : Grid} {n m : ℕ}
    (h : rowLens g = List.replicate n m) : g.length = n := by
  have h2 := congrArg List.length h
  simpa [rowLens] using h2

theorem rowlen_eq_of_rowLens {g : Grid} {n m x : ℕ}
    (h : rowLens g = List.replicate n m) (hx : x < n) :
    (g.getD x []).length = m := by
  rw [← getD_map_length]
  rw [show g.map List.length = rowLens g from rfl, h]
  simp [List.getD_eq_getElem?_getD, List.getElem?_replicate, hx]

/-- C1: for every fixed seed and identical parameters (size, smoothness),
two calls to the heightmap generator produce bit-identical grids: the
generator is a deterministic function of (seed, size, smoothness), with the
seeded linear-congruential generator as the only source of randomness (the
embedding threads the LCG state explicitly and has no other input). -/
theorem c1_generateHeightmap_deterministic (s1 s2 n1 n2 : ℕ) (q1 q2 : ℚ)
    (hs : s1 = s2) (hn : n1 = n2) (hq : q1 = q2) :
    generateHeightmapSeeded s1 n1 q1 = generateHeightmapSeeded s2 n2 q2 := by
  subst hs; subst hn; subst hq; rfl

/-- Witness for C1 at seed 7, size 4, smoothness 1/2. -/
theorem c1_generateHeightmap_deterministic_witness :
    (7 : ℕ) = 7 ∧ (4 : ℕ) = 4 ∧ (1/2 : ℚ) = 1/2 ∧
      generateHeightmapSeeded 7 4 (1/2) = generateHeightmapSeeded 7 4 (1/2) :=
  ⟨rfl, rfl, rfl,
    c1_generateHeightmap_deterministic 7 7 4 4 (1/2) (1/2) rfl rfl rfl⟩

/-- C2: for every size at least 1: if size is a power of two,
generateHeightmap returns a (size+1) x (size+1) grid whose four corners are
the four successive random draws, every cell being an (automatically
finite) exact rational; if size is not a power of two, the call fails with
the invalid-size error.  Generic in the rng. -/
theorem c2_generateHeightmap_shape {σ : Type} (next : σ → ℚ × σ) (st : σ)
    (size : ℕ) (smoothness : ℚ) (h1 : 1 ≤ size) :
    ((∃ k, size = 2 ^ k) →
      ∃ g stf, generateHeightmapR next size smoothness st =
          Except.ok (g, stf) ∧
        g.length = size + 1 ∧ (∀ row ∈ g, row.length = size + 1) ∧
        get2 g 0 0 = (randomValue next st).1 ∧
        get2 g 0 size = (randomValue next (randomValue next st).2).1 ∧
        get2 g size 0 =
          (randomValue next (randomValue next (randomValue next st).2).2).1 ∧
        get2 g size size =
          (randomValue next (randomValue next
            (randomValue next (randomValue next st).2).2).2).1) ∧
    (¬(∃ k, size = 2 ^ k) →
      ∃ e, generateHeightmapR next size smoothness st = Except.error e) := by
  constructor
  · rintro ⟨k, rfl⟩
    set r1 := randomValue next st with hr1
    set r2 := randomValue next r1.2 with hr2
    set r3 := randomValue next r2.2 with hr3
    set r4 := randomValue next r3.2 with hr4
    set g0 : Grid :=
      List.replicate (2 ^ k + 1) (List.replicate (2 ^ k + 1) (0 : ℚ)) with hg0
    set g1 := set2 g0 0 0 r1.1 with hg1
    set g2 := set2 g1 0 (2 ^ k) r2.1 with hg2
    set g3 := set2 g2 (2 ^ k) 0 r3.1 with hg3
    set g4 := set2 g3 (2 ^ k) (2 ^ k) r4.1 with hg4
    have hpos : 1 ≤ (2 : ℕ) ^ k := Nat.one_le_two_pow
    have hrun : generateHeightmapR next (2 ^ k) smoothness st =
        Except.ok (dsLoop next (2 ^ k) (2 ^ k) smoothness (g4, r4.2)) := by
      unfold generateHeightmapR
      rw [if_pos (isPowerOfTwo_two_pow k)]
    have hrl0 : rowLens g0 = List.replicate (2 ^ k + 1) (2 ^ k + 1) := by
      rw [hg0]
      unfold rowLens
      rw [List.map_replicate, List.length_replicate]
    have hrl1 : rowLens g1 = List.replicate (2 ^ k + 1) (2 ^ k + 1) := by
      rw [hg1, rowLens_set2, hrl0]
    have hrl2 : rowLens g2 = List.replicate (2 ^ k + 1) (2 ^ k + 1) := by
      rw [hg2, rowLens_set2, hrl1]
    have hrl3 : rowLens g3 = List.replicate (2 ^ k + 1) (2 ^ k + 1) := by
      rw [hg3, rowLens_set2, hrl2]
    have hrl4 : rowLens g4 = List.replicate (2 ^ k + 1) (2 ^ k + 1) := by
      rw [hg4, rowLens_set2, hrl3]
    have hc00 : get2 g4 0 0 = r1.1 := by
      rw [hg4, get2_set2_ne _ _ _ _ _ _ (Or.inl (by omega)),
        hg3, get2_set2_ne _ _ _ _ _ _ (Or.inl (by omega)),
        hg2, get2_set2_ne _ _ _ _ _ _ (Or.inr (by omega)),
        hg1]
      exact get2_set2_self _ _ _ _
        (by rw [length_eq_of_rowLens hrl0]; omega)
        (by rw [rowlen_eq_of_rowLens hrl0 (by omega)]; omega)
    have hc0s : get2 g4 0 (2 ^ k) = r2.1 := by
      rw [hg4, get2_set2_ne _ _ _ _ _ _ (Or.inl (by omega)),
        hg3, get2_set2_ne _ _ _ _ _ _ (Or.inl (by omega)),
        hg2]
      exact get2_set2_self _ _ _ _
        (by rw [length_eq_of_rowLens hrl1]; omega)
        (by rw [rowlen_eq_of_rowLens hrl1 (by omega)]; omega)
    have hcs0 : get2 g4 (2 ^ k) 0 = r3.1 := by
      rw [hg4, get2_set2_ne _ _ _ _ _ _ (Or.inr (by omega)),
        hg3]
      exact get2_set2_self _ _ _ _
        (by rw [length_eq_of_rowLens hrl2]; omega)
        (by rw [rowlen_eq_of_rowLens hrl2 (by omega)]; omega)
    have hcss : get2 g4 (2 ^ k) (2 ^ k) = r4.1 := by
      rw [hg4]
      exact get2_set2_self _ _ _ _
        (by rw [length_eq_of_rowLens hrl3]; omega)
        (by rw [rowlen_eq_of_rowLens hrl3 (by omega)]; omega)
    have hcorner :
        CornersEq (dsLoop next (2 ^ k) (2 ^ k) smoothness (g4, r4.2)).1
          (2 ^ k) r1.1 r2.1 r3.1 r4.1 :=
      corners_dsLoop next (2 ^ k) (2 ^ k) smoothness (g4, r4.2)
        ⟨k, rfl⟩ (dvd_refl _) ⟨hc00, hc0s, hcs0, hcss⟩
    have hrl : rowLens (dsLoop next (2 ^ k) (2 ^ k) smoothness (g4, r4.2)).1 =
        List.replicate (2 ^ k + 1) (2 ^ k + 1) := by
      rw [rowLens_dsLoop, hrl4]
    obtain ⟨d1, d2, d3, d4⟩ := hcorner
    refine ⟨_, _, hrun, length_eq_of_rowLens hrl, ?_, d1, d2, d3, d4⟩
    intro row hrow
    have hmem : row.length ∈ rowLens
        (dsLoop next (2 ^ k) (2 ^ k) smoothness (g4, r4.2)).1 :=
      List.mem_map_of_mem _ hrow
    rw [hrl] at hmem
    exact List.eq_of_mem_replicate hmem
  · intro hnp
    have hfalse : isPowerOfTwo size ≠ true := fun h =>
      hnp ((isPowerOfTwo_iff size h1).1 h)
    unfold generateHeightmapR
    rw [if_neg hfalse]
    exact ⟨_, rfl⟩

/-- Witness for C2 at size 2 (a power of two) with the seeded rng. -/
theorem c2_generateHeightmap_shape_witness :
    1 ≤ 2 ∧
    ((∃ k, 2 = 2 ^ k) →
      ∃ g stf, generateHeightmapR lcgNext 2 (1 : ℚ) (0 : ℕ) =
          Except.ok (g, stf) ∧
        g.length = 2 + 1 ∧ (∀ row ∈ g, row.length = 2 + 1) ∧
        get2 g 0 0 = (randomValue lcgNext (0 : ℕ)).1 ∧
        get2 g 0 2 = (randomValue lcgNext (randomValue lcgNext (0 : ℕ)).2).1 ∧
        get2 g 2 0 = (randomValue lcgNext (randomValue lcgNext
          (randomValue lcgNext (0 : ℕ)).2).2).1 ∧
        get2 g 2 2 = (randomValue lcgNext (randomValue lcgNext
          (randomValue lcgNext (randomValue lcgNext (0 : ℕ)).2).2).2).1) ∧
    (¬(∃ k, 2 = 2 ^ k) →
      ∃ e, generateHeightmapR lcgNext 2 (1 : ℚ) (0 : ℕ) = Except.error e) :=
  ⟨by omega, (c2_generateHeightmap_shape lcgNext 0 2 1 (by omega)).1,
    (c2_generateHeightmap_shape lcgNext 0 2 1 (by omega)).2⟩

theorem mapRowIdx_const {α β : Type} (F : α → β) (i : ℕ) (l : List α) :
    mapRowIdx (fun _ a => F a) i l = l.map F := by
  induction l generalizing i with
  | nil => rfl
  | cons a t ih => simp [mapRowIdx, ih]

theorem mapGridIdx_const (F : ℚ → ℚ) (g : Grid) :
    mapGridIdx (fun _ _ v => F v) g = g.map (fun row => row.map F) := by
  unfold mapGridIdx
  rw [mapRowIdx_const (fun row => mapRowIdx (fun _ v => F v) 0 row) 0 g]
  simp [mapRowIdx_const]

theorem flatten_mapGridIdx_const (F : ℚ → ℚ) (g : Grid) :
    (mapGridIdx (fun _ _ v => F v) g).flatten = g.flatten.map F := by
  rw [mapGridIdx_const, ← List.map_flatten]

/-- min? on rationals picks a member below all members. -/
theorem rat_min?_iff {xs : List ℚ} {a : ℚ} :
    xs.min? = some a ↔ a ∈ xs ∧ ∀ b ∈ xs, a ≤ b := by
  haveI : Std.Antisymm ((· : ℚ) ≤ ·) := ⟨fun h1 h2 => le_antisymm h1 h2⟩
  exact List.min?_eq_some_iff (fun _ => le_refl _) min_choice
    (fun _ _ _ => le_min_iff)

/-- max? on rationals picks a member above all members. -/
theorem rat_max?_iff {xs : List ℚ} {a : ℚ} :
    xs.max? = some a ↔ a ∈ xs ∧ ∀ b ∈ xs, b ≤ a := by
  haveI : Std.Antisymm ((· : ℚ) ≤ ·) := ⟨fun h1 h2 => le_antisymm h1 h2⟩
  exact List.max?_eq_some_iff (fun _ => le_refl _) max_choice
    (fun _ _ _ => max_le_iff)

/-- DiamondSquare.normalizeHeightmap: find the minimum and maximum over all
cells (the source folds Math.min/Math.max from Infinity and -Infinity,
which over the flattened cell list is exactly min? and max?); if the range
is zero return the input unchanged, else rescale every cell linearly onto
[lo, hi].  A grid with no cells is returned as is (the source rebuilds it
cell by cell, producing an equal value). -/
def normalizeHeightmap (hm : Grid) (lo hi : ℚ) : Grid :=
  match hm.flatten.min?, hm.flatten.max? with
  | some mn, some mx =>
    if mx - mn = 0 then hm
    else mapGridIdx (fun _ _ v => ((v - mn) / (mx - mn)) * (hi - lo) + lo) hm
  | _, _ => hm

theorem normalizeHeightmap_eq (hm : Grid) (lo hi mn mx : ℚ)
    (h1 : hm.flatten.min? = some mn) (h2 : hm.flatten.max? = some mx) :
    normalizeHeightmap hm lo hi =
      if mx - mn = 0 then hm
      else mapGridIdx (fun _ _ v => ((v - mn) / (mx - mn)) * (hi - lo) + lo) hm := by
  unfold normalizeHeightmap
  rw [h1, h2]

/-- C3: for every heightmap grid with at least one cell,
normalizeHeightmap(hm, -1, 1) returns a grid whose minimum value is -1 and
whose maximum value is 1, except when all cell values are equal, in which
case the input grid is returned unchanged. -/
theorem c3_normalizeHeightmap_range (hm : Grid) (h : hm.flatten ≠ []) :
    ((∀ v ∈ hm.flatten, ∀ w ∈ hm.flatten, v = w) →
      normalizeHeightmap hm (-1) 1 = hm) ∧
    (¬(∀ v ∈ hm.flatten, ∀ w ∈ hm.flatten, v = w) →
      (normalizeHeightmap hm (-1) 1).flatten.min? = some (-1) ∧
      (normalizeHeightmap hm (-1) 1).flatten.max? = some 1) := by
  obtain ⟨mn, hmn⟩ : ∃ mn, hm.flatten.min? = some mn := by
    cases hh : hm.flatten.min? with
    | none => exact absurd (List.min?_eq_none_iff.1 hh) h
    | some a => exact ⟨a, rfl⟩
  obtain ⟨mx, hmx⟩ : ∃ mx, hm.flatten.max? = some mx := by
    cases hh : hm.flatten.max? with
    | none => exact absurd (List.max?_eq_none_iff.1 hh) h
    | some a => exact ⟨a, rfl⟩
  obtain ⟨hmnmem, hlow⟩ := rat_min?_iff.1 hmn
  obtain ⟨hmxmem, hhigh⟩ := rat_max?_iff.1 hmx
  constructor
  · intro hconst
    rw [normalizeHeightmap_eq hm (-1) 1 mn mx hmn hmx]
    rw [if_pos (by rw [hconst mn hmnmem mx hmxmem]; ring)]
  · intro hnc
    have hne : mn ≠ mx := by
      intro he
      apply hnc
      intro v hv w hw
      have h1 := hlow v hv
      have h2 := hhigh v hv
      have h3 := hlow w hw
      have h4 := hhigh w hw
      rw [← he] at h2 h4
      linarith
    have hlt : mn < mx := lt_of_le_of_ne (hlow mx hmxmem) hne
    have hrpos : 0 < mx - mn := by linarith
    have hr : mx - mn ≠ 0 := ne_of_gt hrpos
    rw [normalizeHeightmap_eq hm (-1) 1 mn mx hmn hmx, if_neg hr,
      flatten_mapGridIdx_const]
    have hFmn : ((mn - mn) / (mx - mn)) * (1 - (-1)) + (-1) = -1 := by
      rw [sub_self, zero_div]; ring
    have hFmx : ((mx - mn) / (mx - mn)) * (1 - (-1)) + (-1) = 1 := by
      rw [div_self hr]; ring
    constructor
    · rw [rat_min?_iff]
      constructor
      · exact List.mem_map.2 ⟨mn, hmnmem, hFmn⟩
      · intro b hb
        rw [List.mem_map] at hb
        obtain ⟨v, hv, rfl⟩ := hb
        have h0 : 0 ≤ (v - mn) / (mx - mn) :=
          div_nonneg (by linarith [hlow v hv]) (le_of_lt hrpos)
        linarith
    · rw [rat_max?_iff]
      constructor
      · exact List.mem_map.2 ⟨mx, hmxmem, hFmx⟩
      · intro b hb
        rw [List.mem_map] at hb
        obtain ⟨v, hv, rfl⟩ := hb
        have h0 : (v - mn) / (mx - mn) ≤ 1 :=
          (div_le_one hrpos).2 (by linarith [hhigh v hv])
        linarith

/-- Witness for C3 on the two-cell grid [[0, 2]]. -/
theorem c3_normalizeHeightmap_range_witness :
    ([[(0 : ℚ), 2]] : Grid).flatten ≠ [] ∧
    ((∀ v ∈ ([[(0 : ℚ), 2]] : Grid).flatten,
        ∀ w ∈ ([[(0 : ℚ), 2]] : Grid).flatten, v = w) →
      normalizeHeightmap [[(0 : ℚ), 2]] (-1) 1 = [[(0 : ℚ), 2]]) ∧
    (¬(∀ v ∈ ([[(0 : ℚ), 2]] : Grid).flatten,
        ∀ w ∈ ([[(0 : ℚ), 2]] : Grid).flatten, v = w) →
      (normalizeHeightmap [[(0 : ℚ), 2]] (-1) 1).flatten.min? = some (-1) ∧
      (normalizeHeightmap [[(0 : ℚ), 2]] (-1) 1).flatten.max? = some 1) :=
  ⟨by decide, (c3_normalizeHeightmap_range [[(0 : ℚ), 2]] (by decide)).1,
    (c3_normalizeHeightmap_range [[(0 : ℚ), 2]] (by decide)).2⟩

/-- A marching-squares line segment (fields are start and end). -/
structure Seg where
  start : Vec
  stop : Vec
deriving DecidableEq, Repr

/-- The zero vector, standing in for reads the source never performs out of
range. -/
def v0 : Vec := ⟨0, 0⟩

/-- MarchingSquares.EDGE_TABLE: the 16-entry lookup table of 0-2 segments
per corner configuration (entries 5 and 10 are the ambiguous saddles). -/
def edgeTable : List (List (Vec × Vec)) :=
  [[],
   [(⟨0, 1/2⟩, ⟨1/2, 0⟩)],
   [(⟨1/2, 0⟩, ⟨1, 1/2⟩)],
   [(⟨0, 1/2⟩, ⟨1, 1/2⟩)],
   [(⟨1, 1/2⟩, ⟨1/2, 1⟩)],
   [(⟨0, 1/2⟩, ⟨1/2, 0⟩), (⟨1, 1/2⟩, ⟨1/2, 1⟩)],
   [(⟨1/2, 0⟩, ⟨1/2, 1⟩)],
   [(⟨0, 1/2⟩, ⟨1/2, 1⟩)],
   [(⟨1/2, 1⟩, ⟨0, 1/2⟩)],
   [(⟨1/2, 0⟩, ⟨1/2, 1⟩)],
   [(⟨1/2, 1⟩, ⟨0, 1/2⟩), (⟨1/2, 0⟩, ⟨1, 1/2⟩)],
   [(⟨1/2, 0⟩, ⟨1, 1/2⟩)],
   [(⟨1, 1/2⟩, ⟨0, 1/2⟩)],
   [(⟨1/2, 0⟩, ⟨1, 1/2⟩)],
   [(⟨0, 1/2⟩, ⟨1/2, 0⟩)],
   []]

/-- heightmap[x][y] >= threshold, where a missing cell (ragged row) compares
false exactly like the source's undefined >= t. -/
def cellGE (hm : Grid) (x y : ℕ) (t : ℚ) : Bool :=
  match get2? hm x y with
  | some v => decide (t ≤ v)
  | none => false

/-- MarchingSquares.getGridConfiguration: 4-bit corner configuration. -/
def gridConfig (hm : Grid) (x y : ℕ) (t : ℚ) : ℕ :=
  (if cellGE hm x y t then 1 else 0) +
    (if cellGE hm (x + 1) y t then 2 else 0) +
    (if cellGE hm (x + 1) (y + 1) t then 4 else 0) +
    (if cellGE hm x (y + 1) t then 8 else 0)

/-- MarchingSquares.extractSegments: per 2x2 cell, emit the table segments
offset by the cell position. -/
def extractSegments (hm : Grid) (t : ℚ) : List Seg :=
  let width := hm.length - 1
  let height := (hm.getD 0 []).length - 1
  (List.range width).flatMap fun x =>
    (List.range height).flatMap fun y =>
      (edgeTable.getD (gridConfig hm x y t) []).map fun e =>
        ⟨⟨(x : ℚ) + e.1.x, (y : ℚ) + e.1.y⟩, ⟨(x : ℚ) + e.2.x, (y : ℚ) + e.2.y⟩⟩

/-- The scan of buildContour's inner for loop: the first unused segment one
of whose endpoints is within epsilon (0.01, compared squared) of the
current point; returns its index and the point that gets appended (the
segment's other endpoint, which becomes current). -/
def findConnAux (used : List ℕ) (cur : Vec) : ℕ → List Seg → Option (ℕ × Vec)
  | _, [] => none
  | i, s :: rest =>
    if i ∈ used then findConnAux used cur (i + 1) rest
    else if distSq cur s.start < (1/100) ^ 2 then some (i, s.stop)
    else if distSq cur s.stop < (1/100) ^ 2 then some (i, s.start)
    else findConnAux used cur (i + 1) rest

def findConn (segments : List Seg) (used : List ℕ) (cur : Vec) :
    Option (ℕ × Vec) :=
  findConnAux used cur 0 segments

/-- The while(foundConnection) loop of buildContour.  Each successful
iteration marks a fresh unused index, so the number of iterations is
bounded by the number of segments; fuel equal to segments.length therefore
never runs out before findConn fails, and the fuel-0 branch is unreachable
from buildContour. -/
def buildLoop (segments : List Seg) :
    ℕ → List ℕ → Vec → List Vec → List Vec × List ℕ
  | 0, used, _, acc => (acc, used)
  | fuel + 1, used, cur, acc =>
    match findConn segments used cur with
    | none => (acc, used)
    | some (i, p) => buildLoop segments fuel (i :: used) p (acc ++ [p])

/-- The contour-chasing part of MarchingSquares.buildContour: mark the
start segment used, seed the contour with its two endpoints, then chase
connections until none is found. -/
def buildCore (segments : List Seg) (startIndex : ℕ) (used : List ℕ) :
    List Vec × List ℕ :=
  let s := segments.getD startIndex ⟨v0, v0⟩
  buildLoop segments segments.length (startIndex :: used) s.stop
    [s.start, s.stop]

/-- MarchingSquares.buildContour: the chase of buildCore, then close the
contour by appending a copy of its first point when it has more than 2
points and its free end is within 5 x epsilon of its start. -/
def buildContour (segments : List Seg) (startIndex : ℕ) (used : List ℕ) :
    List Vec × List ℕ :=
  if 2 < (buildCore segments startIndex used).1.length ∧
      distSq ((buildCore segments startIndex used).1.headD v0)
        ((buildCore segments startIndex used).1.getLastD v0) < (5/100) ^ 2
  then ((buildCore segments startIndex used).1 ++
      [(buildCore segments startIndex used).1.headD v0],
    (buildCore segments startIndex used).2)
  else buildCore segments startIndex used

/-- MarchingSquares.connectSegments: walk the segment indices, building a
contour from each not-yet-used one; the used set is shared across builds. -/
def connectSegments (segments : List Seg) : List (List Vec) :=
  ((List.range segments.length).foldl
    (fun (st : List (List Vec) × List ℕ) i =>
      if i ∈ st.2 then st
      else
        let r := buildContour segments i st.2
        if 0 < r.1.length then (st.1 ++ [r.1], r.2) else (st.1, r.2))
    ([], [])).1

/-- One smoothed interior vertex (alpha = 0.5). -/
def smoothPoint (prev curr nxt : Vec) : Vec :=
  ⟨curr.x * (1 - 1/2) + (prev.x + nxt.x) * (1/2) * (1/2),
   curr.y * (1 - 1/2) + (prev.y + nxt.y) * (1/2) * (1/2)⟩

/-- MarchingSquares.smoothContour: keep both endpoints, average interior
vertices with their neighbors. -/
def smoothContour (contour : List Vec) : List Vec :=
  if contour.length < 3 then contour
  else
    [contour.headD v0] ++
      ((List.range (contour.length - 2)).map fun j =>
        smoothPoint (contour.getD j v0) (contour.getD (j + 1) v0)
          (contour.getD (j + 2) v0)) ++
      [contour.getLastD v0]

/-- Contour extraction options; extractContours is always called with all
three fields explicit (defaults smoothing = true, minLength = 5 are baked
in at the call sites below). -/
structure ContourOptions where
  threshold : ℚ
  smoothing : Bool
  minLength : ℕ

/-- MarchingSquares.extractContours: segments, stitching, length filter,
optional smoothing. -/
def extractContours (hm : Grid) (opts : ContourOptions) : List (List Vec) :=
  let segments := extractSegments hm opts.threshold
  let contours := connectSegments segments
  let filtered := contours.filter fun c => opts.minLength ≤ c.length
  if opts.smoothing then filtered.map smoothContour else filtered

/-- MarchingSquares.calculateContourArea: shoelace sum over consecutive
vertices, adding the closing term when first and last are more than 0.1
apart (compared squared), halved absolute value. -/
def calculateContourArea (contour : List Vec) : ℚ :=
  if contour.length < 3 then 0
  else
    let area := ((List.range (contour.length - 1)).map fun i =>
      (contour.getD i v0).x * (contour.getD (i + 1) v0).y -
        (contour.getD (i + 1) v0).x * (contour.getD i v0).y).sum
    let area2 :=
      if (1/10) ^ 2 < distSq (contour.headD v0) (contour.getLastD v0) then
        area + (contour.getLastD v0).x * (contour.headD v0).y -
          (contour.headD v0).x * (contour.getLastD v0).y
      else area
    |area2| / 2

/-- One step of extractCoastline's best-contour scan: keep the candidate
when its area strictly exceeds the best area so far. -/
def bestStep (best : List Vec × ℚ) (c : List Vec) : List Vec × ℚ :=
  if best.2 < calculateContourArea c then (c, calculateContourArea c)
  else best

/-- MarchingSquares.extractCoastline: extract contours at the threshold
(smoothing on, minLength 20) and keep the one with the largest area. -/
def extractCoastline (hm : Grid) (t : ℚ) : List Vec :=
  match extractContours hm ⟨t, true, 20⟩ with
  | [] => []
  | c0 :: rest => (rest.foldl bestStep (c0, calculateContourArea c0)).1

/-- MarchingSquares.extractMultipleContours: one extraction per threshold,
smoothing on, default minLength 5. -/
def extractMultipleContours (hm : Grid) (ts : List ℚ) :
    List (List (List Vec)) :=
  ts.map fun t => extractContours hm ⟨t, true, 5⟩

/-- MarchingSquares.heightmapToWorld: affine grid-to-world transform. -/
def heightmapToWorld (points : List Vec) (center : Vec)
    (heightmapSize worldScale : ℚ) : List Vec :=
  points.map fun p =>
    ⟨center.x + (p.x - heightmapSize / 2) * worldScale,
     center.y + (p.y - heightmapSize / 2) * worldScale⟩

theorem smoothContour_length (c : List Vec) :
    (smoothContour c).length = c.length := by
  unfold smoothContour
  by_cases h : c.length < 3
  · rw [if_pos h]
  · rw [if_neg h]
    simp only [List.length_append, List.length_map, List.length_range,
      List.length_cons, List.length_nil]
    omega

theorem extractContours_minLength (hm : Grid) (opts : ContourOptions) :
    ∀ c ∈ extractContours hm opts, opts.minLength ≤ c.length := by
  intro c hc
  unfold extractContours at hc
  by_cases hs : opts.smoothing = true
  · rw [if_pos hs] at hc
    rw [List.mem_map] at hc
    obtain ⟨c0, hc0, rfl⟩ := hc
    rw [List.mem_filter] at hc0
    rw [smoothContour_length]
    exact of_decide_eq_true hc0.2
  · rw [if_neg hs] at hc
    rw [List.mem_filter] at hc
    exact of_decide_eq_true hc.2

/-- C4: every contour returned by extractContours with minLength = L has at
least L points (shorter ones are discarded by the filter); and a built
contour whose chase result has more than 2 points and whose free end lies
within 5 x epsilon of its own start point (squared comparison against
(0.05)^2) is closed by appending a copy of its start point, making its
last point equal its first. -/
theorem c4_extractContours_minLength_and_closing (hm : Grid)
    (opts : ContourOptions) (segments : List Seg) (startIndex : ℕ)
    (used : List ℕ) :
    (∀ c ∈ extractContours hm opts, opts.minLength ≤ c.length) ∧
    (2 < (buildCore segments startIndex used).1.length →
      distSq ((buildCore segments startIndex used).1.headD v0)
          ((buildCore segments startIndex used).1.getLastD v0) < (5/100) ^ 2 →
      (buildContour segments startIndex used).1 =
        (buildCore segments startIndex used).1 ++
          [(buildCore segments startIndex used).1.headD v0] ∧
      (buildContour segments startIndex used).1.getLastD v0 =
        (buildContour segments startIndex used).1.headD v0) := by
  refine ⟨extractContours_minLength hm opts, ?_⟩
  intro h1 h2
  have heq : (buildContour segments startIndex used).1 =
      (buildCore segments startIndex used).1 ++
        [(buildCore segments startIndex used).1.headD v0] := by
    unfold buildContour
    rw [if_pos ⟨h1, h2⟩]
  refine ⟨heq, ?_⟩
  rw [heq, List.getLastD_concat]
  cases hc : (buildCore segments startIndex used).1 with
  | nil => rw [hc] at h1; simp at h1
  | cons a t => simp

theorem bestStep_spec (rest : List (List Vec)) :
    ∀ (b : List Vec × ℚ), b.2 = calculateContourArea b.1 →
    ((rest.foldl bestStep b).1 = b.1 ∨ (rest.foldl bestStep b).1 ∈ rest) ∧
    (rest.foldl bestStep b).2 =
      calculateContourArea (rest.foldl bestStep b).1 ∧
    b.2 ≤ (rest.foldl bestStep b).2 ∧
    ∀ c ∈ rest, calculateContourArea c ≤ (rest.foldl bestStep b).2 := by
  induction rest with
  | nil =>
    intro b hb
    exact ⟨Or.inl rfl, hb, le_refl _, by simp⟩
  | cons c t ih =>
    intro b hb
    simp only [List.foldl_cons]
    have hb2 : (bestStep b c).2 = calculateContourArea (bestStep b c).1 := by
      unfold bestStep
      split
      · rfl
      · exact hb
    obtain ⟨m1, m2, m3, m4⟩ := ih (bestStep b c) hb2
    refine ⟨?_, m2, ?_, ?_⟩
    · rcases m1 with h | h
      · by_cases hlt : b.2 < calculateContourArea c
        · have hc : (bestStep b c).1 = c := by unfold bestStep; rw [if_pos hlt]
          right
          rw [h, hc]
          exact List.mem_cons_self c t
        · have hcb : (bestStep b c).1 = b.1 := by
            unfold bestStep; rw [if_neg hlt]
          left
          rw [h, hcb]
      · right
        exact List.mem_cons_of_mem _ h
    · have hstep : b.2 ≤ (bestStep b c).2 := by
        unfold bestStep
        split
        · exact le_of_lt (by assumption)
        · exact le_refl _
      exact le_trans hstep m3
    · intro c2 hc2
      rcases List.mem_cons.1 hc2 with rfl | h
      · have hstep : calculateContourArea c2 ≤ (bestStep b c2).2 := by
          unfold bestStep
          split
          · exact le_refl _
          · exact le_of_not_lt (by assumption)
        exact le_trans hstep m3
      · exact m4 c2 h

theorem extractCoastline_eq_cons (hm : Grid) (t : ℚ) (c0 : List Vec)
    (rest : List (List Vec)) (h : extractContours hm ⟨t, true, 20⟩ = c0 :: rest) :
    extractCoastline hm t =
      (rest.foldl bestStep (c0, calculateContourArea c0)).1 := by
  unfold extractCoastline
  rw [h]

theorem extractCoastline_eq_nil (hm : Grid) (t : ℚ)
    (h : extractContours hm ⟨t, true, 20⟩ = []) :
    extractCoastline hm t = [] := by
  unfold extractCoastline
  rw [h]

/-- C5: extractCoastline returns a contour of maximal
calculateContourArea-area among the contours extracted at that threshold
(smoothing on, minimum vertex count 20), and returns the empty list exactly
when no such contour is extracted. -/
theorem c5_extractCoastline_max_area (hm : Grid) (t : ℚ) :
    (extractCoastline hm t = [] ↔ extractContours hm ⟨t, true, 20⟩ = []) ∧
    (extractContours hm ⟨t, true, 20⟩ ≠ [] →
      extractCoastline hm t ∈ extractContours hm ⟨t, true, 20⟩ ∧
      ∀ c ∈ extractContours hm ⟨t, true, 20⟩,
        calculateContourArea c ≤ calculateContourArea (extractCoastline hm t)) := by
  cases hcs : extractContours hm ⟨t, true, 20⟩ with
  | nil =>
    rw [extractCoastline_eq_nil hm t hcs]
    exact ⟨iff_of_true rfl rfl, fun h => absurd rfl h⟩
  | cons c0 rest =>
    have heq := extractCoastline_eq_cons hm t c0 rest hcs
    rw [heq]
    obtain ⟨m1, m2, m3, m4⟩ :=
      bestStep_spec rest (c0, calculateContourArea c0) rfl
    have hmem : (rest.foldl bestStep (c0, calculateContourArea c0)).1 ∈
        c0 :: rest := by
      rcases m1 with h | h
      · rw [h]; exact List.mem_cons_self c0 rest
      · exact List.mem_cons_of_mem _ h
    have hlen : 20 ≤ (rest.foldl bestStep (c0, calculateContourArea c0)).1.length := by
      have h20 := extractContours_minLength hm ⟨t, true, 20⟩
        (rest.foldl bestStep (c0, calculateContourArea c0)).1
        (by rw [hcs]; exact hmem)
      exact h20
    refine ⟨⟨fun he => ?_, fun he => ?_⟩, fun _ => ⟨hmem, ?_⟩⟩
    · rw [he] at hlen
      simp at hlen
    · exact absurd he (by simp)
    · intro c hc
      rw [← m2]
      rcases List.mem_cons.1 hc with rfl | h
      · exact m3
      · exact m4 c h

/-- Witness for C5 on a concrete heightmap (plain application; the theorem
has no leading hypotheses). -/
theorem c5_extractCoastline_max_area_witness :
    (extractCoastline [[(0 : ℚ)]] 0 = [] ↔
      extractContours [[(0 : ℚ)]] ⟨0, true, 20⟩ = []) ∧
    (extractContours [[(0 : ℚ)]] ⟨0, true, 20⟩ ≠ [] →
      extractCoastline [[(0 : ℚ)]] 0 ∈ extractContours [[(0 : ℚ)]] ⟨0, true, 20⟩ ∧
      ∀ c ∈ extractContours [[(0 : ℚ)]] ⟨0, true, 20⟩,
        calculateContourArea c ≤
          calculateContourArea (extractCoastline [[(0 : ℚ)]] 0)) :=
  c5_extractCoastline_max_area [[(0 : ℚ)]] 0

/-- Witness for C4 on a concrete 2 x 2 grid and a one-segment list. -/
theorem c4_extractContours_minLength_and_closing_witness :
    (∀ c ∈ extractContours [[(0 : ℚ), 1], [0, 0]] ⟨1/2, true, 5⟩,
      (5 : ℕ) ≤ c.length) ∧
    (2 < (buildCore [⟨⟨0, 0⟩, ⟨0, 1⟩⟩] 0 []).1.length →
      distSq ((buildCore [⟨⟨0, 0⟩, ⟨0, 1⟩⟩] 0 []).1.headD v0)
          ((buildCore [⟨⟨0, 0⟩, ⟨0, 1⟩⟩] 0 []).1.getLastD v0) < (5/100) ^ 2 →
      (buildContour [⟨⟨0, 0⟩, ⟨0, 1⟩⟩] 0 []).1 =
        (buildCore [⟨⟨0, 0⟩, ⟨0, 1⟩⟩] 0 []).1 ++
          [(buildCore [⟨⟨0, 0⟩, ⟨0, 1⟩⟩] 0 []).1.headD v0] ∧
      (buildContour [⟨⟨0, 0⟩, ⟨0, 1⟩⟩] 0 []).1.getLastD v0 =
        (buildContour [⟨⟨0, 0⟩, ⟨0, 1⟩⟩] 0 []).1.headD v0) :=
  c4_extractContours_minLength_and_closing [[(0 : ℚ), 1], [0, 0]]
    ⟨1/2, true, 5⟩ [⟨⟨0, 0⟩, ⟨0, 1⟩⟩] 0 []

/-- The transcendental pieces of the JS Math library, supplied abstractly:
there is no rational realisation of sqrt, fractional pow, sin, cos or pi,
and none of the claims depends on their values, so the definitions take
them as parameters and the theorems quantify over them (with defining
properties as hypotheses where a claim needs them). -/
structure JsMath where
  pow : ℚ → ℚ → ℚ
  sqrt : ℚ → ℚ
  sin : ℚ → ℚ
  cos : ℚ → ℚ
  pi : ℚ

/-- A JsMath instance used only to instantiate witnesses. -/
def trivMath : JsMath :=
  ⟨fun _ _ => 0, fun _ => 0, fun _ => 0, fun _ => 1, 0⟩

/-- center = size / 2 with size = heightmap.length - 1 (as JS numbers, so
-1/2 for an empty grid). -/
def gridCenter (hm : Grid) : ℚ :=
  ((hm.length : ℚ) - 1) / 2

/-- maxRadius = center * 0.9 of applyIslandMask. -/
def maskRadius (hm : Grid) : ℚ :=
  gridCenter hm * (9/10)

/-- Squared distance from cell (x, y) to the grid center. -/
def cellD2 (hm : Grid) (x y : ℕ) : ℚ :=
  ((x : ℚ) - gridCenter hm) * ((x : ℚ) - gridCenter hm) +
    ((y : ℚ) - gridCenter hm) * ((y : ℚ) - gridCenter hm)

/-- DiamondSquare.applyIslandMask.  The source compares
normalizedDistance = sqrt(d2) / maxRadius against 0.7 and 1.0; for
maxRadius > 0 those comparisons are exactly the squared comparisons used
here (sqrt and squaring are monotone on nonnegatives), and for
maxRadius = 0 (a one-row grid) the JS quotient is NaN or Infinity, which
fails both comparisons — also the behaviour of the guards here.  Negative
maxRadius only occurs for a rowless grid, which has no cells.  The falloff
branch's value (but not its guard) uses the irrational normalizedDistance
and Math.pow, supplied by M. -/
def applyIslandMask (M : JsMath) (hm : Grid) (falloffFactor : ℚ) : Grid :=
  mapGridIdx (fun x y v =>
    if 0 < maskRadius hm ∧
        cellD2 hm x y ≤ (7/10) ^ 2 * maskRadius hm ^ 2 then
      3/5 + max 0 (v * (2/5))
    else if 0 < maskRadius hm ∧ cellD2 hm x y ≤ maskRadius hm ^ 2 then
      let fz := (M.sqrt (cellD2 hm x y) / maskRadius hm - 7/10) / (3/10)
      let fm := max 0 (1 - M.pow fz falloffFactor)
      3/5 * fm + max 0 (v * (3/10) * fm)
    else -(1/2)) hm

/-- C6: for every input grid and every falloffFactor (and every model M of
the transcendental functions), applyIslandMask gives every cell within 70
percent of the mask radius of the grid center an elevation of at least the
base 0.6 = 3/5, and sets every cell beyond the mask radius to the constant
-0.5, below sea level. -/
theorem c6_applyIslandMask_profile (M : JsMath) (hm : Grid)
    (falloffFactor : ℚ) (x y : ℕ)
    (hx : x < hm.length) (hy : y < (hm.getD x []).length) :
    ((0 < maskRadius hm ∧
        cellD2 hm x y ≤ (7/10) ^ 2 * maskRadius hm ^ 2) →
      3/5 ≤ get2 (applyIslandMask M hm falloffFactor) x y) ∧
    (¬(0 < maskRadius hm ∧ cellD2 hm x y ≤ maskRadius hm ^ 2) →
      get2 (applyIslandMask M hm falloffFactor) x y = -(1/2)) := by
  unfold applyIslandMask
  rw [get2_mapGridIdx _ _ _ _ hx hy]
  constructor
  · intro hcond
    rw [if_pos hcond]
    have hmx : (0 : ℚ) ≤ max 0 (get2 hm x y * (2/5)) := le_max_left 0 _
    linarith
  · intro hncond
    have hn1 : ¬(0 < maskRadius hm ∧
        cellD2 hm x y ≤ (7/10) ^ 2 * maskRadius hm ^ 2) := by
      intro hc1
      exact hncond ⟨hc1.1, le_trans hc1.2 (by nlinarith [sq_nonneg (maskRadius hm)])⟩
    rw [if_neg hn1, if_neg hncond]

/-- Witness for C6: the center cell of a 3 x 3 grid lies in the solid
interior, and the corner cell of a 2 x 2 grid lies beyond the radius. -/
theorem c6_applyIslandMask_profile_witness :
    ((1 : ℕ) < ([[1, 1, 1], [1, 1, 1], [1, 1, 1]] : Grid).length ∧
      (1 : ℕ) < (([[1, 1, 1], [1, 1, 1], [1, 1, 1]] : Grid).getD 1 []).length ∧
      (0 < maskRadius [[1, 1, 1], [1, 1, 1], [1, 1, 1]] ∧
        cellD2 [[1, 1, 1], [1, 1, 1], [1, 1, 1]] 1 1 ≤
          (7/10) ^ 2 * maskRadius [[1, 1, 1], [1, 1, 1], [1, 1, 1]] ^ 2) ∧
      3/5 ≤ get2 (applyIslandMask trivMath [[1, 1, 1], [1, 1, 1], [1, 1, 1]] 2) 1 1) ∧
    ((0 : ℕ) < ([[1, 1], [1, 1]] : Grid).length ∧
      (0 : ℕ) < (([[1, 1], [1, 1]] : Grid).getD 0 []).length ∧
      ¬(0 < maskRadius [[1, 1], [1, 1]] ∧
        cellD2 [[1, 1], [1, 1]] 0 0 ≤ maskRadius [[1, 1], [1, 1]] ^ 2) ∧
      get2 (applyIslandMask trivMath [[1, 1], [1, 1]] 2) 0 0 = -(1/2)) :=
  ⟨⟨by decide, by decide,
    by norm_num [maskRadius, gridCenter, cellD2],
    (c6_applyIslandMask_profile trivMath [[1, 1, 1], [1, 1, 1], [1, 1, 1]]
        2 1 1 (by decide) (by decide)).1
      (by norm_num [maskRadius, gridCenter, cellD2])⟩,
   ⟨by decide, by decide,
    by norm_num [maskRadius, gridCenter, cellD2],
    (c6_applyIslandMask_profile trivMath [[1, 1], [1, 1]] 2 0 0
        (by decide) (by decide)).2
      (by norm_num [maskRadius, gridCenter, cellD2])⟩⟩

/-- SolidLandmassGenerator.getOrganicRadiusVariation: 1 plus a weighted sum
of sine/cosine harmonics at frequencies 3, 5, 8, 12 (plus 20 and 30 when
coastalComplexity exceeds 0.5), each with a fresh random phase in [0, pi),
clamped to [0.4, 1.6].  The baseRadius parameter is accepted and ignored,
as in the source. -/
def getOrganicRadiusVariation (M : JsMath) (coastalComplexity : ℚ)
    (angle _baseRadius : ℚ) (st : RandState) : ℚ × RandState :=
  let r1 := rsNext st
  let v1 := 1 + M.sin (angle * 3 + r1.1 * M.pi) * (3/10)
  let r2 := rsNext r1.2
  let v2 := v1 + M.cos (angle * 5 + r2.1 * M.pi) * (2/10)
  let r3 := rsNext r2.2
  let v3 := v2 + M.sin (angle * 8 + r3.1 * M.pi) * (15/100)
  let r4 := rsNext r3.2
  let v4 := v3 + M.cos (angle * 12 + r4.1 * M.pi) * (1/10)
  if 1/2 < coastalComplexity then
    let r5 := rsNext r4.2
    let v5 := v4 + M.sin (angle * 20 + r5.1 * M.pi) * (8/100)
    let r6 := rsNext r5.2
    let v6 := v5 + M.cos (angle * 30 + r6.1 * M.pi) * (5/100)
    (max (2/5) (min (8/5) v6), r6.2)
  else
    (max (2/5) (min (8/5) v4), r4.2)

/-- The vertex loop of SolidLandmassGenerator.createOrganicCircle, one
vertex per index. -/
def circleLoop (M : JsMath) (coastalComplexity : ℚ) (center : Vec)
    (radius : ℚ) (n : ℤ) : List ℕ → RandState → List Vec × RandState
  | [], st => ([], st)
  | i :: rest, st =>
    let angle := ((i : ℚ) / (n : ℚ)) * M.pi * 2
    let rv := getOrganicRadiusVariation M coastalComplexity angle radius st
    let actualRadius := radius * rv.1
    let p : Vec := ⟨center.x + M.cos angle * actualRadius,
      center.y + M.sin angle * actualRadius⟩
    let rec2 := circleLoop M coastalComplexity center radius n rest rv.2
    (p :: rec2.1, rec2.2)

/-- SolidLandmassGenerator.createOrganicCircle: 32 + floor(random()*16)
angular samples, each at radius radius * organic variation. -/
def createOrganicCircle (M : JsMath) (coastalComplexity : ℚ) (center : Vec)
    (radius : ℚ) (st : RandState) : List Vec × RandState :=
  let r0 := rsNext st
  let numSegments : ℤ := 32 + ⌊r0.1 * 16⌋
  circleLoop M coastalComplexity center radius numSegments
    (List.range numSegments.toNat) r0.2

theorem organicVariation_bounds (M : JsMath) (cc angle br : ℚ)
    (st : RandState) :
    2/5 ≤ (getOrganicRadiusVariation M cc angle br st).1 ∧
    (getOrganicRadiusVariation M cc angle br st).1 ≤ 8/5 := by
  unfold getOrganicRadiusVariation
  dsimp only
  split
  · exact ⟨le_max_left _ _, max_le (by norm_num) (min_le_left _ _)⟩
  · exact ⟨le_max_left _ _, max_le (by norm_num) (min_le_left _ _)⟩

theorem circleLoop_length (M : JsMath) (cc : ℚ) (center : Vec) (radius : ℚ)
    (n : ℤ) : ∀ (l : List ℕ) (st : RandState),
    (circleLoop M cc center radius n l st).1.length = l.length := by
  intro l
  induction l with
  | nil => intro st; rfl
  | cons i rest ih =>
    intro st
    unfold circleLoop
    dsimp only
    rw [List.length_cons, ih]
    rfl

theorem circleLoop_distSq (M : JsMath) (cc : ℚ) (center : Vec) (radius : ℚ)
    (n : ℤ) (hpy : ∀ θ, M.sin θ ^ 2 + M.cos θ ^ 2 = 1) :
    ∀ (l : List ℕ) (st : RandState),
    ∀ p ∈ (circleLoop M cc center radius n l st).1,
      ((2/5) * radius) ^ 2 ≤ distSq p center ∧
      distSq p center ≤ ((8/5) * radius) ^ 2 := by
  intro l
  induction l with
  | nil => intro st p hp; simp [circleLoop] at hp
  | cons i rest ih =>
    intro st p hp
    unfold circleLoop at hp
    dsimp only at hp
    rcases List.mem_cons.1 hp with rfl | hmem
    · set angle := ((i : ℚ) / (n : ℚ)) * M.pi * 2 with hangle
      set v := (getOrganicRadiusVariation M cc angle radius st).1 with hv
      obtain ⟨hv1, hv2⟩ := organicVariation_bounds M cc angle radius st
      rw [← hv] at hv1 hv2
      have hd : distSq
          ⟨center.x + M.cos angle * (radius * v),
           center.y + M.sin angle * (radius * v)⟩ center =
          (radius * v) ^ 2 * (M.sin angle ^ 2 + M.cos angle ^ 2) := by
        unfold distSq
        dsimp only
        ring
      rw [hd, hpy angle, mul_one]
      have hv2a : (2/5 : ℚ) ^ 2 ≤ v ^ 2 := by nlinarith
      have hv2b : v ^ 2 ≤ (8/5 : ℚ) ^ 2 := by nlinarith
      have ha := mul_le_mul_of_nonneg_left hv2a (sq_nonneg radius)
      have hb := mul_le_mul_of_nonneg_left hv2b (sq_nonneg radius)
      constructor <;> nlinarith [ha, hb]
    · exact ih _ p hmem

/-- C9: for every center, base radius, complexity and transcendental model
with the Pythagorean identity, and every Math.random stream with values in
[0, 1), createOrganicCircle returns between 32 and 48 vertices, each at a
distance from the center between 0.4 and 1.6 times the base radius
(squared comparison; the bound is independent of the sign of radius). -/
theorem c9_createOrganicCircle_bounds (M : JsMath) (cc : ℚ) (center : Vec)
    (radius : ℚ) (f : ℕ → ℚ) (k : ℕ)
    (hpy : ∀ θ, M.sin θ ^ 2 + M.cos θ ^ 2 = 1)
    (hrng : ∀ m, 0 ≤ f m ∧ f m < 1) :
    32 ≤ (createOrganicCircle M cc center radius ⟨f, k⟩).1.length ∧
    (createOrganicCircle M cc center radius ⟨f, k⟩).1.length ≤ 48 ∧
    ∀ p ∈ (createOrganicCircle M cc center radius ⟨f, k⟩).1,
      ((2/5) * radius) ^ 2 ≤ distSq p center ∧
      distSq p center ≤ ((8/5) * radius) ^ 2 := by
  obtain ⟨hge, hlt⟩ := hrng k
  have hfl1 : 0 ≤ ⌊f k * 16⌋ := Int.floor_nonneg.2 (by linarith)
  have hfl2 : ⌊f k * 16⌋ < 16 := Int.floor_lt.2 (by push_cast; linarith)
  have hlen : (createOrganicCircle M cc center radius ⟨f, k⟩).1.length =
      (32 + ⌊f k * 16⌋).toNat := by
    unfold createOrganicCircle
    dsimp only [rsNext]
    rw [circleLoop_length, List.length_range]
  refine ⟨?_, ?_, ?_⟩
  · rw [hlen]; omega
  · rw [hlen]; omega
  · intro p hp
    unfold createOrganicCircle at hp
    dsimp only [rsNext] at hp
    exact circleLoop_distSq M cc center radius _ hpy _ _ p hp

/-- Witness for C9 with the trivial transcendental model (cos = 1, sin = 0
satisfies the identity) and the all-zero random stream. -/
theorem c9_createOrganicCircle_bounds_witness :
    (∀ θ, trivMath.sin θ ^ 2 + trivMath.cos θ ^ 2 = 1) ∧
    (∀ m, 0 ≤ (fun _ : ℕ => (0 : ℚ)) m ∧ (fun _ : ℕ => (0 : ℚ)) m < 1) ∧
    (32 ≤ (createOrganicCircle trivMath 1 ⟨0, 0⟩ 10 ⟨fun _ => 0, 0⟩).1.length ∧
    (createOrganicCircle trivMath 1 ⟨0, 0⟩ 10 ⟨fun _ => 0, 0⟩).1.length ≤ 48 ∧
    ∀ p ∈ (createOrganicCircle trivMath 1 ⟨0, 0⟩ 10 ⟨fun _ => 0, 0⟩).1,
      ((2/5) * (10 : ℚ)) ^ 2 ≤ distSq p ⟨0, 0⟩ ∧
      distSq p ⟨0, 0⟩ ≤ ((8/5) * (10 : ℚ)) ^ 2) :=
  ⟨fun θ => by norm_num [trivMath], fun m => by norm_num,
    c9_createOrganicCircle_bounds trivMath 1 ⟨0, 0⟩ 10 (fun _ => 0) 0
      (fun θ => by norm_num [trivMath]) (fun m => by norm_num)⟩

/-- JS Math.round: floor(x + 0.5) (halves round up). -/
def jsRound (q : ℚ) : ℤ :=
  ⌊q + 1/2⌋

theorem log2half_exists (q : ℚ) : ∃ m : ℕ, q ^ 2 < 2 ^ (2 * m + 1) := by
  obtain ⟨m, hm⟩ := pow_unbounded_of_one_lt (q ^ 2) (by norm_num : (1 : ℚ) < 2)
  exact ⟨m, lt_of_lt_of_le hm (pow_le_pow_right (by norm_num) (by omega))⟩

/-- Math.round(Math.log2 q) for q at least 1: the least k with
q^2 < 2^(2k+1), i.e. the unique k with log2 q in [k - 1/2, k + 1/2).
Math.round rounds half up, but log2 of a rational is never exactly
k - 1/2 (2^(k-1/2) is irrational), so the two agree on rational inputs. -/
def log2half (q : ℚ) : ℕ :=
  Nat.find (log2half_exists q)

/-- HeightmapIslandGenerator.nearestPowerOfTwo:
Math.pow(2, Math.round(Math.log2 n)), modelled for inputs n at least 1
(the call site passes max(64, n)). -/
def nearestPowerOfTwo (q : ℚ) : ℕ :=
  2 ^ log2half q

theorem log2half_ge_six (q : ℚ) (h : 64 ≤ q) : 6 ≤ log2half q := by
  unfold log2half
  rw [Nat.le_find_iff]
  intro m hm hq
  have h1 : (2 : ℚ) ^ (2 * m + 1) ≤ 2 ^ 12 := by
    apply pow_le_pow_right (by norm_num)
    omega
  have h2 : (4096 : ℚ) ≤ q ^ 2 := by nlinarith
  have h3 : ((2 : ℚ)) ^ 12 = 4096 := by norm_num
  linarith

/-- The size computed by createSingleHeightmapIsland:
nearestPowerOfTwo(max(64, round(baseSize * (1 + (rand - 0.5) * 2 *
sizeVariation)))). -/
def attemptSize (baseSize sizeVariation q : ℚ) : ℕ :=
  nearestPowerOfTwo
    ((max 64 (jsRound (baseSize * (1 + (q - 1/2) * 2 * sizeVariation))) : ℤ) : ℚ)

/-- HeightmapIslandGenerator.applyVolcanicProfile: add a steep central
peak.  Divisions by maxRadius use the rational convention x/0 = 0, reached
only on one-row grids, which the orchestrator never produces. -/
def applyVolcanicProfile (M : JsMath) (hm : Grid) : Grid :=
  mapGridIdx (fun x y v =>
    let center := ((hm.length : ℚ) - 1) / 2
    let maxRadius := center * (8/10)
    let dx := (x : ℚ) - center
    let dy := (y : ℚ) - center
    let nd := min 1 (M.sqrt (dx * dx + dy * dy) / maxRadius)
    v + M.pow (1 - nd) (3/2) * (8/10)) hm

/-- HeightmapIslandGenerator.applyAtollProfile: raise a ring between the
inner and outer radius, sink a lagoon inside the inner radius. -/
def applyAtollProfile (M : JsMath) (hm : Grid) : Grid :=
  mapGridIdx (fun x y v =>
    let center := ((hm.length : ℚ) - 1) / 2
    let innerRadius := center * (3/10)
    let outerRadius := center * (8/10)
    let dx := (x : ℚ) - center
    let dy := (y : ℚ) - center
    let dist := M.sqrt (dx * dx + dy * dy)
    let hmod :=
      if innerRadius ≤ dist ∧ dist ≤ outerRadius then
        M.sin (((dist - innerRadius) / (outerRadius - innerRadius)) * M.pi) *
          (4/10)
      else if dist < innerRadius then
        -((1 - dist / innerRadius) * (5/10))
      else 0
    v + hmod) hm

/-- heightmap[x][y] < t, with a missing cell comparing false like JS
undefined < t. -/
def cellLT (hm : Grid) (x y : ℕ) (t : ℚ) : Bool :=
  match get2? hm x y with
  | some v => decide (v < t)
  | none => false

/-- HeightmapIslandGenerator.isLocalMaximum: no in-bounds 3x3 neighbor is
at or above the center value. -/
def isLocalMaximum (hm : Grid) (x y : ℕ) : Bool :=
  let c := get2 hm x y
  ([(-1, -1), (-1, 0), (-1, 1), (0, -1), (0, 1), (1, -1), (1, 0), (1, 1)] :
      List (ℤ × ℤ)).all fun d =>
    let nx := (x : ℤ) + d.1
    let ny := (y : ℤ) + d.2
    if 0 ≤ nx ∧ nx < (hm.length : ℤ) ∧ 0 ≤ ny ∧
        ny < ((hm.getD 0 []).length : ℤ) then
      match get2? hm nx.toNat ny.toNat with
      | some v => decide (v < c)
      | none => true
    else true

/-- HeightmapIslandGenerator.findPeaks: interior cells strictly above
minHeight that are strict local maxima. -/
def findPeaks (hm : Grid) (minHeight : ℚ) : List Vec :=
  let width := hm.length
  let height := (hm.getD 0 []).length
  (strideIdxLt 1 (width - 1) 1).flatMap fun x =>
    (strideIdxLt 1 (height - 1) 1).flatMap fun y =>
      match get2? hm x y with
      | some v =>
        if minHeight < v ∧ isLocalMaximum hm x y then [⟨(x : ℚ), (y : ℚ)⟩]
        else []
      | none => []

/-- HeightmapIslandGenerator.createBooleanGrid. -/
def createBooleanGrid (width height : ℕ) : List (List Bool) :=
  List.replicate width (List.replicate height false)

/-- visited[x][y]; a physically absent entry reads as visited, which is
never reached because the flood fill bounds-checks against the heightmap
whose dimensions the visited grid shares. -/
def getVis (vis : List (List Bool)) (x y : ℕ) : Bool :=
  ((List.get? vis x).bind fun row => List.get? row y).getD true

/-- visited[x][y] = true. -/
def setVis (vis : List (List Bool)) (x y : ℕ) : List (List Bool) :=
  vis.set x ((vis.getD x []).set y true)

/-- Number of unvisited entries, the termination measure of the flood
fill. -/
def countFalse (vis : List (List Bool)) : ℕ :=
  (vis.map fun row => row.count false).sum

theorem count_false_set_true : ∀ (row : List Bool) (y : ℕ),
    List.get? row y = some false →
    (row.set y true).count false < row.count false := by
  intro row
  induction row with
  | nil => intro y h; simp at h
  | cons b t ih =>
    intro y h
    cases y with
    | zero =>
      rw [List.get?_cons_zero, Option.some.injEq] at h
      subst h
      simp [List.set, List.count_cons]
    | succ n =>
      rw [List.get?_cons_succ] at h
      have := ih n h
      cases b <;> simp [List.set, List.count_cons] <;> omega

theorem countFalse_setVis : ∀ (vis : List (List Bool)) (x y : ℕ),
    getVis vis x y = false →
    countFalse (setVis vis x y) < countFalse vis := by
  intro vis
  induction vis with
  | nil => intro x y h; simp [getVis] at h
  | cons row t ih =>
    intro x y h
    cases x with
    | zero =>
      have hrow : List.get? row y = some false := by
        unfold getVis at h
        rw [List.get?_cons_zero, Option.some_bind] at h
        cases hr : List.get? row y with
        | none => rw [hr] at h; simp at h
        | some b =>
          rw [hr] at h
          cases b
          · rfl
          · simp at h
      unfold setVis countFalse
      simp only [List.set, List.getD_cons_zero, List.map_cons, List.sum_cons]
      have := count_false_set_true row y hrow
      omega
    | succ n =>
      have h2 : getVis t n y = false := by
        unfold getVis at h ⊢
        rw [List.get?_cons_succ] at h
        exact h
      unfold setVis countFalse
      simp only [List.set, List.getD_cons_succ, List.map_cons, List.sum_cons]
      have := ih n y h2
      unfold setVis countFalse at this
      omega

/-- The stack loop of HeightmapIslandGenerator.floodFillValley.  The stack
is kept top-first (JS pushes then pops from the end); pushing the four
neighbors (x-1,y), (x+1,y), (x,y-1), (x,y+1) in source order therefore
conses them in reverse.  Termination: a skipped entry shortens the stack, a
marked entry decreases the count of unvisited cells. -/
def floodLoop (hm : Grid) (maxHeight : ℚ) :
    List (List Bool) → List Vec → List Vec → List Vec × List (List Bool)
  | vis, [], acc => (acc, vis)
  | vis, c :: rest, acc =>
    let xi : ℤ := ⌊c.x⌋
    let yi : ℤ := ⌊c.y⌋
    if xi < 0 ∨ (hm.length : ℤ) ≤ xi ∨ yi < 0 ∨
        ((hm.getD 0 []).length : ℤ) ≤ yi then
      floodLoop hm maxHeight vis rest acc
    else if hskip : getVis vis xi.toNat yi.toNat = true ∨
        cellGE hm xi.toNat yi.toNat maxHeight = true then
      floodLoop hm maxHeight vis rest acc
    else
      floodLoop hm maxHeight (setVis vis xi.toNat yi.toNat)
        (⟨(xi.toNat : ℚ), (yi.toNat : ℚ) + 1⟩ ::
          ⟨(xi.toNat : ℚ), (yi.toNat : ℚ) - 1⟩ ::
          ⟨(xi.toNat : ℚ) + 1, (yi.toNat : ℚ)⟩ ::
          ⟨(xi.toNat : ℚ) - 1, (yi.toNat : ℚ)⟩ :: rest)
        (acc ++ [⟨(xi.toNat : ℚ), (yi.toNat : ℚ)⟩])
termination_by vis stack _ => 5 * countFalse vis + stack.length
decreasing_by
  · simp only [List.length_cons]
    omega
  · simp only [List.length_cons]
    have hv : getVis vis ⌊c.x⌋.toNat ⌊c.y⌋.toNat = false := by
      cases hgv : getVis vis ⌊c.x⌋.toNat ⌊c.y⌋.toNat with
      | false => rfl
      | true => exact absurd (Or.inl hgv) hskip
    have := countFalse_setVis vis ⌊c.x⌋.toNat ⌊c.y⌋.toNat hv
    omega

/-- HeightmapIslandGenerator.floodFillValley: flood fill from the start
cell, returning the valley cells and the updated (shared) visited grid. -/
def floodFillValley (hm : Grid) (vis : List (List Bool)) (startX startY : ℕ)
    (maxHeight : ℚ) : List Vec × List (List Bool) :=
  floodLoop hm maxHeight vis [⟨(startX : ℚ), (startY : ℚ)⟩] []

/-- HeightmapIslandGenerator.findValleys: flood-fill each unvisited
below-threshold cell, keeping components of more than 5 cells. -/
def findValleys (hm : Grid) (maxHeight : ℚ) : List (List Vec) :=
  ((List.range hm.length).foldl
    (fun (st : List (List Vec) × List (List Bool)) x =>
      (List.range (hm.getD 0 []).length).foldl
        (fun st2 y =>
          if getVis st2.2 x y = false ∧ cellLT hm x y maxHeight = true then
            let r := floodFillValley hm st2.2 x y maxHeight
            if 5 < r.1.length then (st2.1 ++ [r.1], r.2) else (st2.1, r.2)
          else st2)
        st)
    ([], createBooleanGrid hm.length (hm.getD 0 []).length)).1

/-- HeightmapIslandGenerator.IslandFeatures. -/
structure IslandFeatures where
  coastline : List Vec
  beaches : List (List Vec)
  peaks : List Vec
  valleys : List (List Vec)
  heightmap : Grid
  center : Vec

/-- The heightmapIslands parameter block consumed by the orchestrator. -/
structure HIParams where
  numIslands : ℕ
  baseSize : ℚ
  sizeVariation : ℚ
  falloffFactor : ℚ
  smoothness : ℚ
  seaLevel : ℚ
  beachLevel : ℚ
  worldScale : ℚ
  volcanoMode : Bool
  atolloMode : Bool

/-- HeightmapIslandGenerator.extractIslandFeatures: coastline at sea level,
three beach bands, peaks above 0.6, valleys below seaLevel + 0.3, all
mapped to world coordinates around the island center. -/
def extractIslandFeatures (P : HIParams) (hm : Grid) (center : Vec) :
    IslandFeatures :=
  let sz := (hm.length : ℚ) - 1
  let coastlineHm := extractCoastline hm P.seaLevel
  let coastline := heightmapToWorld coastlineHm center sz P.worldScale
  let beachThresholds := [P.seaLevel + 1/10, P.seaLevel + 2/10, P.beachLevel]
  let beachContoursHm := extractMultipleContours hm beachThresholds
  let beaches := (beachContoursHm.map fun cs =>
    cs.map fun c => heightmapToWorld c center sz P.worldScale).flatten
  let peaksHm := findPeaks hm (6/10)
  let peaks := peaksHm.map fun p =>
    (heightmapToWorld [p] center sz P.worldScale).headD v0
  let valleysHm := findValleys hm (P.seaLevel + 3/10)
  let valleys := valleysHm.map fun vl => heightmapToWorld vl center sz P.worldScale
  ⟨coastline, beaches, peaks, valleys, hm, center⟩

/-- HeightmapIslandGenerator.calculatePolygonArea: shoelace with wraparound
closing term, absolute value halved. -/
def calculatePolygonArea (polygon : List Vec) : ℚ :=
  if polygon.length < 3 then 0
  else
    |((List.range polygon.length).map fun i =>
      (polygon.getD i v0).x * (polygon.getD ((i + 1) % polygon.length) v0).y -
        (polygon.getD ((i + 1) % polygon.length) v0).x *
          (polygon.getD i v0).y).sum| / 2

/-- HeightmapIslandGenerator.isValidIsland: at least 10 coastline points
and polygon area above 1000. -/
def isValidIsland (island : IslandFeatures) : Bool :=
  if island.coastline.length < 10 then false
  else decide (1000 < calculatePolygonArea island.coastline)

/-- An island-center candidate is accepted when no already-placed island
center is within 800 world units (squared form of distance < 800). -/
def validCenter (islands : List IslandFeatures) (cand : Vec) : Bool :=
  islands.all fun isl => decide (640000 ≤ distSq cand isl.center)

/-- The attempt loop of HeightmapIslandGenerator.generateIslandCenter:
each attempt draws x then y over the world rectangle and accepts the
first valid candidate; the caller allows 50 attempts. -/
def genCenterLoop (islands : List IslandFeatures) (origin wd : Vec) :
    ℕ → RandState → Option Vec × RandState
  | 0, st => (none, st)
  | fuel + 1, st =>
    let r1 := rsNext st
    let r2 := rsNext r1.2
    let cand : Vec := ⟨origin.x + r1.1 * wd.x, origin.y + r2.1 * wd.y⟩
    if validCenter islands cand then (some cand, r2.2)
    else genCenterLoop islands origin wd fuel r2.2

/-- HeightmapIslandGenerator.generateIslandCenter: 50 attempts, then
none. -/
def generateIslandCenter (islands : List IslandFeatures) (origin wd : Vec)
    (st : RandState) : Option Vec × RandState :=
  genCenterLoop islands origin wd 50 st

/-- The candidate produced on the i-th attempt when the stream cursor
starts at k: two fresh draws for x and y. -/
def candAt (origin wd : Vec) (f : ℕ → ℚ) (k i : ℕ) : Vec :=
  ⟨origin.x + f (k + 2 * i) * wd.x, origin.y + f (k + 2 * i + 1) * wd.y⟩

/-- The body of createSingleHeightmapIsland before the validity check:
place a center (or fail), draw the size variation, generate the heightmap
(the options seed passed by the source is ignored by generateHeightmap,
whose rng is the unseeded Math.random of the instance created in the
generator's constructor), apply the optional volcano or atoll profile,
draw the falloff variation, mask, normalize and extract features.  A
thrown invalid-size error is caught and yields none (the claim C10 proves
that branch unreachable).  The updates the source makes to the sea
polygon, streamline grids and tensor field draw no randomness and do not
feed back into this pipeline, so they are not part of the modelled
state. -/
def islandAttempt (M : JsMath) (P : HIParams) (origin wd : Vec)
    (islands : List IslandFeatures) (st : RandState) :
    Option IslandFeatures × RandState :=
  match generateIslandCenter islands origin wd st with
  | (none, st2) => (none, st2)
  | (some center, st1) =>
    let r := rsNext st1
    let size := attemptSize P.baseSize P.sizeVariation r.1
    match generateHeightmapR rsNext size P.smoothness r.2 with
    | Except.error _ => (none, r.2)
    | Except.ok (hm, st3) =>
      let hm1 := if P.volcanoMode then applyVolcanicProfile M hm
        else if P.atolloMode then applyAtollProfile M hm else hm
      let r2 := rsNext st3
      let falloffVariation := 9/10 + r2.1 * (2/10)
      let hm2 := applyIslandMask M hm1 (P.falloffFactor * falloffVariation)
      let hm3 := normalizeHeightmap hm2 (-1) 1
      (some (extractIslandFeatures P hm3 center), r2.2)

/-- HeightmapIslandGenerator.createSingleHeightmapIsland: the attempt,
published only if isValidIsland accepts it (the islandIndex argument only
feeds logging and the ignored seed). -/
def createSingleHeightmapIsland (M : JsMath) (P : HIParams) (origin wd : Vec)
    (islands : List IslandFeatures) (_islandIndex : ℕ) (st : RandState) :
    Option IslandFeatures × RandState :=
  match islandAttempt M P origin wd islands st with
  | (none, st2) => (none, st2)
  | (some features, st2) =>
    if isValidIsland features then (some features, st2) else (none, st2)

/-- One iteration of the createHeightmapIslands loop: push the island on
success, publish nothing on failure. -/
def islandsLoopBody (M : JsMath) (P : HIParams) (origin wd : Vec)
    (st : List IslandFeatures × RandState) (i : ℕ) :
    List IslandFeatures × RandState :=
  match createSingleHeightmapIsland M P origin wd st.1 i st.2 with
  | (some isl, st2) => (st.1 ++ [isl], st2)
  | (none, st2) => (st.1, st2)

/-- HeightmapIslandGenerator.createHeightmapIslands: start from an empty
islands list and attempt numIslands islands in order. -/
def createHeightmapIslands (M : JsMath) (P : HIParams) (origin wd : Vec)
    (st : RandState) : List IslandFeatures × RandState :=
  (List.range P.numIslands).foldl (islandsLoopBody M P origin wd) ([], st)

/-- C10: the size passed by createSingleHeightmapIsland to
generateHeightmap — nearestPowerOfTwo(max(64, rounded actual size)) — is a
power of two and at least 64 for every baseSize, sizeVariation and random
draw, so the non-power-of-two error branch of generateHeightmap is
unreachable from the island generation path: the call returns ok. -/
theorem c10_attemptSize_power_of_two {σ : Type} (next : σ → ℚ × σ) (st : σ)
    (baseSize sizeVariation q smoothness : ℚ) :
    isPowerOfTwo (attemptSize baseSize sizeVariation q) = true ∧
    64 ≤ attemptSize baseSize sizeVariation q ∧
    ∃ g stf, generateHeightmapR next (attemptSize baseSize sizeVariation q)
        smoothness st = Except.ok (g, stf) := by
  have h64 : (64 : ℚ) ≤
      ((max 64 (jsRound (baseSize * (1 + (q - 1/2) * 2 * sizeVariation))) : ℤ) : ℚ) := by
    have h : (64 : ℤ) ≤
        max 64 (jsRound (baseSize * (1 + (q - 1/2) * 2 * sizeVariation))) :=
      le_max_left _ _
    exact_mod_cast h
  have h6 := log2half_ge_six _ h64
  have hpow : isPowerOfTwo (attemptSize baseSize sizeVariation q) = true := by
    unfold attemptSize nearestPowerOfTwo
    exact isPowerOfTwo_two_pow _
  refine ⟨hpow, ?_, ?_⟩
  · unfold attemptSize nearestPowerOfTwo
    calc (64 : ℕ) = 2 ^ 6 := by norm_num
    _ ≤ 2 ^ log2half _ := Nat.pow_le_pow_right (by omega) h6
  · unfold generateHeightmapR
    rw [if_pos hpow]
    exact ⟨_, _, rfl⟩

theorem candAt_shift (origin wd : Vec) (f : ℕ → ℚ) (k i : ℕ) :
    candAt origin wd f (k + 2) i = candAt origin wd f k (i + 1) := by
  unfold candAt
  have e1 : k + 2 + 2 * i = k + 2 * (i + 1) := by omega
  rw [e1]

theorem genCenterLoop_none_char (islands : List IslandFeatures)
    (origin wd : Vec) (f : ℕ → ℚ) :
    ∀ (fuel k : ℕ),
      (∀ i, i < fuel → validCenter islands (candAt origin wd f k i) = false) →
      genCenterLoop islands origin wd fuel ⟨f, k⟩ =
        (none, ⟨f, k + 2 * fuel⟩) := by
  intro fuel
  induction fuel with
  | zero =>
    intro k h
    simp [genCenterLoop]
  | succ n ih =>
    intro k h
    unfold genCenterLoop
    dsimp only [rsNext]
    have h0 : validCenter islands
        ⟨origin.x + f k * wd.x, origin.y + f (k + 1) * wd.y⟩ = false := by
      have hh := h 0 (by omega)
      unfold candAt at hh
      simpa using hh
    rw [if_neg (by simp [h0])]
    have hrec := ih (k + 2) (fun i hi => by
      rw [candAt_shift]
      exact h (i + 1) (by omega))
    rw [hrec]
    have e : k + 2 + 2 * n = k + 2 * (n + 1) := by omega
    rw [e]

theorem genCenterLoop_some_valid (islands : List IslandFeatures)
    (origin wd : Vec) :
    ∀ (fuel : ℕ) (st : RandState) (c : Vec),
      (genCenterLoop islands origin wd fuel st).1 = some c →
      validCenter islands c = true := by
  intro fuel
  induction fuel with
  | zero =>
    intro st c h
    simp [genCenterLoop] at h
  | succ n ih =>
    intro st c h
    unfold genCenterLoop at h
    dsimp only at h
    split at h
    · rename_i hvalid
      dsimp only at h
      rw [Option.some.injEq] at h
      rw [← h]
      exact hvalid
    · exact ih _ c h

theorem islandAttempt_some_center (M : JsMath) (P : HIParams)
    (origin wd : Vec) (islands : List IslandFeatures) (st : RandState)
    (isl : IslandFeatures) :
    (islandAttempt M P origin wd islands st).1 = some isl →
    validCenter islands isl.center = true := by
  intro h
  unfold islandAttempt at h
  split at h
  · simp at h
  · rename_i center st1 heq
    dsimp only at h
    split at h
    · simp at h
    · rename_i hm st3 heq2
      dsimp only at h
      rw [Option.some.injEq] at h
      have hc : (generateIslandCenter islands origin wd st).1 = some center := by
        rw [heq]
      have hv := genCenterLoop_some_valid islands origin wd 50 st center hc
      rw [← h]
      exact hv

theorem createSingle_some (M : JsMath) (P : HIParams) (origin wd : Vec)
    (islands : List IslandFeatures) (i : ℕ) (st : RandState)
    (isl : IslandFeatures) :
    (createSingleHeightmapIsland M P origin wd islands i st).1 = some isl →
    validCenter islands isl.center = true ∧ isValidIsland isl = true := by
  intro h
  unfold createSingleHeightmapIsland at h
  split at h
  · simp at h
  · rename_i features st2 heq
    split at h
    · rename_i hval
      dsimp only at h
      rw [Option.some.injEq] at h
      constructor
      · refine islandAttempt_some_center M P origin wd islands st isl ?_
        rw [heq]
        dsimp only
        rw [h]
      · rw [← h]
        exact hval
    · simp at h

theorem islandsLoop_inv (M : JsMath) (P : HIParams) (origin wd : Vec)
    (l : List ℕ) :
    ∀ (acc : List IslandFeatures × RandState),
      List.Pairwise (fun a b => 640000 ≤ distSq a.center b.center) acc.1 →
      (∀ j ∈ acc.1, isValidIsland j = true) →
      (l.foldl (islandsLoopBody M P origin wd) acc).1.length ≤
          acc.1.length + l.length ∧
        List.Pairwise (fun a b => 640000 ≤ distSq a.center b.center)
          (l.foldl (islandsLoopBody M P origin wd) acc).1 ∧
        ∀ j ∈ (l.foldl (islandsLoopBody M P origin wd) acc).1,
          isValidIsland j = true := by
  induction l with
  | nil =>
    intro acc h1 h2
    exact ⟨by simp, h1, h2⟩
  | cons i t ih =>
    intro acc h1 h2
    rw [List.foldl_cons]
    rcases hb : islandsLoopBody M P origin wd acc i with ⟨lst, stb⟩
    have hstep : lst = acc.1 ∨
        ∃ isl, (createSingleHeightmapIsland M P origin wd acc.1 i acc.2).1 =
          some isl ∧ lst = acc.1 ++ [isl] := by
      unfold islandsLoopBody at hb
      split at hb
      · rename_i isl st2 heq
        right
        refine ⟨isl, by rw [heq], ?_⟩
        have := congrArg Prod.fst hb
        exact this.symm
      · left
        have := congrArg Prod.fst hb
        exact this.symm
    have hP : List.Pairwise (fun a b => 640000 ≤ distSq a.center b.center) lst ∧
        ∀ j ∈ lst, isValidIsland j = true := by
      rcases hstep with rfl | ⟨isl, hsome, rfl⟩
      · exact ⟨h1, h2⟩
      · obtain ⟨hvc, hvi⟩ :=
          createSingle_some M P origin wd acc.1 i acc.2 isl hsome
        constructor
        · rw [List.pairwise_append]
          refine ⟨h1, List.pairwise_singleton _ _, ?_⟩
          intro a ha b hbm
          rw [List.mem_singleton] at hbm
          subst hbm
          have hall := (List.all_eq_true.1 hvc) a ha
          have := of_decide_eq_true hall
          rw [distSq_comm] at this
          exact this
        · intro j hj
          rcases List.mem_append.1 hj with hj | hj
          · exact h2 j hj
          · rw [List.mem_singleton] at hj
            subst hj
            exact hvi
    have hlen : lst.length ≤ acc.1.length + 1 := by
      rcases hstep with rfl | ⟨isl, hsome, rfl⟩
      · omega
      · simp
    obtain ⟨r1, r2, r3⟩ := ih (lst, stb) hP.1 hP.2
    refine ⟨?_, r2, r3⟩
    have : (t.foldl (islandsLoopBody M P origin wd) (lst, stb)).1.length ≤
        lst.length + t.length := r1
    simp only [List.length_cons]
    omega

/-- C7: every run of heightmap island generation publishes at most
numIslands islands, any two published island centers are at least 800
world units apart (squared form), and candidate-center sampling makes at
most 50 attempts per island: when all 50 candidates of a stream are
rejected, the island's center comes out none and the island is omitted. -/
theorem c7_createHeightmapIslands_bounds (M : JsMath) (P : HIParams)
    (origin wd : Vec) (st : RandState) (islands : List IslandFeatures)
    (f : ℕ → ℚ) (k : ℕ)
    (h50 : ∀ i, i < 50 →
      validCenter islands (candAt origin wd f k i) = false) :
    (createHeightmapIslands M P origin wd st).1.length ≤ P.numIslands ∧
    List.Pairwise (fun a b => 640000 ≤ distSq a.center b.center)
      (createHeightmapIslands M P origin wd st).1 ∧
    (generateIslandCenter islands origin wd ⟨f, k⟩).1 = none := by
  have hinv := islandsLoop_inv M P origin wd (List.range P.numIslands)
    ([], st) (by simp) (by simp)
  refine ⟨?_, hinv.2.1, ?_⟩
  · have h := hinv.1
    simpa using h
  · unfold generateIslandCenter
    rw [genCenterLoop_none_char islands origin wd f 50 k h50]

/-- The island record used to instantiate witnesses. -/
def isl0 : IslandFeatures :=
  ⟨[], [], [], [], [], ⟨0, 0⟩⟩

/-- Parameters used to instantiate witnesses. -/
def p0 : HIParams :=
  ⟨0, 0, 0, 0, 0, 0, 0, 0, false, false⟩

/-- Witness for C7: with an existing island at the origin, a zero world
rectangle and the all-zero stream, all 50 candidates coincide with the
existing center and are rejected. -/
theorem c7_createHeightmapIslands_bounds_witness :
    (∀ i, i < 50 → validCenter [isl0]
      (candAt ⟨0, 0⟩ ⟨0, 0⟩ (fun _ => 0) 0 i) = false) ∧
    ((createHeightmapIslands trivMath p0 ⟨0, 0⟩ ⟨0, 0⟩ ⟨fun _ => 0, 0⟩).1.length ≤
        p0.numIslands ∧
      List.Pairwise (fun a b => 640000 ≤ distSq a.center b.center)
        (createHeightmapIslands trivMath p0 ⟨0, 0⟩ ⟨0, 0⟩ ⟨fun _ => 0, 0⟩).1 ∧
      (generateIslandCenter [isl0] ⟨0, 0⟩ ⟨0, 0⟩ ⟨fun _ => 0, 0⟩).1 = none) :=
  ⟨fun i _ => by
      unfold validCenter candAt isl0 distSq
      simp,
    c7_createHeightmapIslands_bounds trivMath p0 ⟨0, 0⟩ ⟨0, 0⟩
      ⟨fun _ => 0, 0⟩ [isl0] (fun _ => 0) 0
      (fun i _ => by
        unfold validCenter candAt isl0 distSq
        simp)⟩

/-- C8: an island generation attempt publishes an IslandFeatures record if
and only if the attempt produced features passing validation (isValidIsland:
coastline of at least 10 points and shoelace area above 1000); a failed
attempt leaves the islands list unchanged, and every published island in a
full run is valid — the state is never partially published. -/
theorem c8_island_publication (M : JsMath) (P : HIParams) (origin wd : Vec)
    (islands : List IslandFeatures) (i : ℕ) (st st0 : RandState)
    (isl : IslandFeatures) :
    ((createSingleHeightmapIsland M P origin wd islands i st).1 = some isl ↔
      (islandAttempt M P origin wd islands st).1 = some isl ∧
        isValidIsland isl = true) ∧
    ((createSingleHeightmapIsland M P origin wd islands i st).1 = none →
      (islandsLoopBody M P origin wd (islands, st) i).1 = islands) ∧
    (∀ j ∈ (createHeightmapIslands M P origin wd st0).1,
      isValidIsland j = true) := by
  refine ⟨?_, ?_, ?_⟩
  · rcases ha : islandAttempt M P origin wd islands st with ⟨oi, st2⟩
    unfold createSingleHeightmapIsland
    rw [ha]
    cases oi with
    | none =>
      dsimp only
      constructor
      · intro h
        simp at h
      · rintro ⟨h, -⟩
        simp at h
    | some features =>
      dsimp only
      by_cases hval : isValidIsland features = true
      · rw [if_pos hval]
        dsimp only
        constructor
        · intro h
          rw [Option.some.injEq] at h
          subst h
          exact ⟨rfl, hval⟩
        · exact fun hp => hp.1
      · rw [if_neg hval]
        dsimp only
        constructor
        · intro h
          simp at h
        · rintro ⟨h, hv⟩
          rw [Option.some.injEq] at h
          subst h
          exact absurd hv hval
  · intro h
    unfold islandsLoopBody
    dsimp only
    rcases hc : createSingleHeightmapIsland M P origin wd islands i st
      with ⟨oc, st2⟩
    rw [hc] at h
    dsimp only at h
    subst h
    rfl
  · have hinv := islandsLoop_inv M P origin wd (List.range P.numIslands)
      ([], st0) (by simp) (by simp)
    exact hinv.2.2

/-- Witness for C8 at concrete arguments (plain application; the inner
implications are part of the conclusion). -/
theorem c8_island_publication_witness :
    ((createSingleHeightmapIsland trivMath p0 ⟨0, 0⟩ ⟨0, 0⟩ [] 0
        ⟨fun _ => 0, 0⟩).1 = some isl0 ↔
      (islandAttempt trivMath p0 ⟨0, 0⟩ ⟨0, 0⟩ [] ⟨fun _ => 0, 0⟩).1 =
          some isl0 ∧
        isValidIsland isl0 = true) ∧
    ((createSingleHeightmapIsland trivMath p0 ⟨0, 0⟩ ⟨0, 0⟩ [] 0
        ⟨fun _ => 0, 0⟩).1 = none →
      (islandsLoopBody trivMath p0 ⟨0, 0⟩ ⟨0, 0⟩ ([], ⟨fun _ => 0, 0⟩) 0).1 =
        []) ∧
    (∀ j ∈ (createHeightmapIslands trivMath p0 ⟨0, 0⟩ ⟨0, 0⟩
        ⟨fun _ => 0, 0⟩).1, isValidIsland j = true) :=
  c8_island_publication trivMath p0 ⟨0, 0⟩ ⟨0, 0⟩ [] 0 ⟨fun _ => 0, 0⟩
    ⟨fun _ => 0, 0⟩ isl0

end MapGen
